import Mathlib

set_option autoImplicit false
set_option maxRecDepth 100000

/-!
Shallow embedding of the zippy dictionary word-extraction pipeline
(`zippy.py`): the script classifier, the layout detectors, the per-layout
extraction strategies and the StarDict binary-index parser.

Python strings are modelled as lists of characters (`PyStr`); byte buffers
as lists of naturals.  Python list indexing inside the detection loops is
modelled with `Option`-valued access (`List.get?`), so an out-of-range
access would surface as `none`; the totality claim about the pipeline is
then the statement that the top-level extraction is always `some`.
Unicode-dependent character predicates (`str.isalpha`, `str.lower`, …) are
modelled on the character ranges this program manipulates (ASCII, Latin-1
and Latin extended, IPA, combining marks, and the tracked non-Latin
scripts).
-/

/-- A Python string, as a list of characters. -/
abbrev PyStr := List Char

/-- ASCII whitespace, the whitespace `str.strip()` / `str.split()` see in
these corpora. -/
def pyIsSpaceChar (c : Char) : Bool :=
  c = ' ' || c = '\t' || c = '\n' || c = '\r' || c = '\x0b' || c = '\x0c'

/-- Python `str.strip()`. -/
def pyStrip (s : PyStr) : PyStr :=
  ((s.dropWhile pyIsSpaceChar).reverse.dropWhile pyIsSpaceChar).reverse

/-- Python `str.strip(set)`: remove the given characters from both ends. -/
def stripCharSet (set : PyStr) (s : PyStr) : PyStr :=
  ((s.dropWhile (fun c => set.contains c)).reverse.dropWhile
      (fun c => set.contains c)).reverse

/-- `string.punctuation`. -/
def punctuationChars : PyStr :=
  "!\"#$%&\x27()*+,-./:;<=>?@[\\]^_`\x7b|\x7d~".data

/-- `clean_word`: strip punctuation from word boundaries. -/
def clean_word (w : PyStr) : PyStr := stripCharSet punctuationChars w

/-- The characters removed by `normalize_word` (regex `[-‐'.,/ ]+`). -/
def normalizeRemoved : PyStr := "-‐\x27.,/ ".data

/-- `normalize_word`: remove common punctuation everywhere in the word. -/
def normalize_word (w : PyStr) : PyStr :=
  w.filter (fun c => !(normalizeRemoved.contains c))

/-- Python `str.startswith` on character lists. -/
def listStartsWith : PyStr → PyStr → Bool
  | [], _ => true
  | _ :: _, [] => false
  | a :: p, b :: s => a = b && listStartsWith p s

/-- Python `needle in hay` substring containment. -/
def containsSubstr : PyStr → PyStr → Bool
  | [], needle => needle.isEmpty
  | hay@(_ :: rest), needle => listStartsWith needle hay || containsSubstr rest needle

/-- ASCII lower-casing (the header keywords and URL tokens are ASCII). -/
def toLowerAscii (c : Char) : Char :=
  if 'A' ≤ c && c ≤ 'Z' then Char.ofNat (c.toNat + 32) else c

/-- ASCII upper-casing (the technical-abbreviation denylist is ASCII). -/
def toUpperAscii (c : Char) : Char :=
  if 'a' ≤ c && c ≤ 'z' then Char.ofNat (c.toNat - 32) else c

/-- Python `str.isalpha` restricted to the character ranges this program
manipulates: ASCII letters, Latin-1 letters, Latin Extended plus IPA
letters and modifier letters, Cyrillic letters, Arabic letters,
Devanagari letters, kana and unified CJK ideographs. -/
def pyIsAlpha (c : Char) : Bool :=
  let n := c.toNat
  (0x41 ≤ n && n ≤ 0x5A) || (0x61 ≤ n && n ≤ 0x7A) ||
  (0xC0 ≤ n && n ≤ 0xFF && n ≠ 0xD7 && n ≠ 0xF7) ||
  (0x100 ≤ n && n ≤ 0x2AF) ||
  (0x2B0 ≤ n && n ≤ 0x2FF) ||
  (0x400 ≤ n && n ≤ 0x4FF && !(0x482 ≤ n && n ≤ 0x489)) ||
  (0x621 ≤ n && n ≤ 0x64A) ||
  (0x904 ≤ n && n ≤ 0x939) ||
  (0x3041 ≤ n && n ≤ 0x3096) || (0x30A1 ≤ n && n ≤ 0x30FA) ||
  (0x4E00 ≤ n && n ≤ 0x9FAF)

/-- Python `str.isdigit` (ASCII digits). -/
def pyIsDigit (c : Char) : Bool :=
  let n := c.toNat
  0x30 ≤ n && n ≤ 0x39

/-- Python `str.isalnum` on a character. -/
def pyIsAlnum (c : Char) : Bool := pyIsAlpha c || pyIsDigit c

/-- Python `s.isalpha()` on a whole string: non-empty and all alphabetic. -/
def pyIsAlphaStr (s : PyStr) : Bool := !s.isEmpty && s.all pyIsAlpha

/-- `HEADER_PATTERNS['prefixes']`. -/
def headerPrefixes : List PyStr :=
  ["#", "00-database", "Author:", "Maintainer:", "Edition:", "Size:",
   "Publisher:", "Availability:", "Copyright", "This program",
   "Published", "ID#", "Series:", "Changelog:", "*", "Notes:",
   "Source(s):", "Database Status:", "The Project:"].map String.data

/-- `HEADER_PATTERNS['keywords']`. -/
def headerKeywords : List PyStr :=
  ["freedict", "dictionary", "license", "copyright",
   "available", "foundation", "version", "ver.", "converted",
   "imported", "makefile", "initial", "michael bunk",
   "piotr bański", "conversion of tei", "tools/xsl",
   "manual clean-up", "stable"].map String.data

/-- `is_header_line`: metadata prefix, or metadata keyword in the
lower-cased line. -/
def is_header_line (line : PyStr) : Bool :=
  headerPrefixes.any (fun p => listStartsWith p line) ||
  headerKeywords.any (fun k => containsSubstr (line.map toLowerAscii) k)

/-- The substrings matched by `YEAR_PATTERN` (regex
`20(?:05|10|18|19|20|21|22|23|24)`). -/
def yearPatterns : List PyStr :=
  ["2005", "2010", "2018", "2019", "2020", "2021",
   "2022", "2023", "2024"].map String.data

/-- `contains_year`. -/
def contains_year (line : PyStr) : Bool :=
  yearPatterns.any (fun y => containsSubstr line y)

/-- The IPA characters of `_IPA_MARKER_RE`. -/
def ipaMarkerChars : PyStr := "ɐəɪɛɜːʃɹɔɑɒæʌʔɘɯɤɞɨʊʉɵɶœøɛ̃ɔ̃ɑ̃ˈˌ".data

/-- The character class of `PRONUNCIATION_SIMPLE_RE`
(`/[a-zA-Zɛɔɑɪəɔ̃ɑ̃ɛ̃]+/`): ASCII letters, five IPA vowels and the
combining tilde. -/
def simplePronChar (c : Char) : Bool :=
  ('a' ≤ c && c ≤ 'z') || ('A' ≤ c && c ≤ 'Z') || "ɛɔɑɪə̃".data.contains c

/-- After at least one class character following an opening slash: keep
consuming class characters, succeed on a closing slash. -/
def simplePronTail : PyStr → Bool
  | [] => false
  | c :: rest =>
    if c = '/' then true
    else if simplePronChar c then simplePronTail rest
    else false

/-- Directly after an opening slash: at least one class character, then a
closing slash. -/
def simplePronAfter : PyStr → Bool
  | [] => false
  | c :: rest => simplePronChar c && simplePronTail rest

/-- `PRONUNCIATION_SIMPLE_RE.search`: some `/[class]+/` substring. -/
def hasSimplePronMatch : PyStr → Bool
  | [] => false
  | c :: rest => (c = '/' && simplePronAfter rest) || hasSimplePronMatch rest

/-- `has_pronunciation_markers`. -/
def has_pronunciation_markers (line : PyStr) : Bool :=
  if !line.contains '/' then false
  else if line.any (fun c => ipaMarkerChars.contains c) then true
  else hasSimplePronMatch line

/-- `extract_pronunciation_word`: headword before the first slash of a
pronunciation-format line. -/
def extract_pronunciation_word (line : PyStr) : Option PyStr :=
  if !line.contains '/' then none
  else
    let word := pyStrip (line.takeWhile (fun c => c ≠ '/'))
    if word.isEmpty then none
    else
      let clean := normalize_word word
      if 2 ≤ clean.length && pyIsAlphaStr clean && !word.any pyIsDigit then
        some word
      else none

/-- `_TRANSLATE_MAP`: commas (ASCII, Arabic, CJK) and tilde become spaces. -/
def translatePunct (c : Char) : Char :=
  if c = ',' || c = '،' || c = '、' || c = '~' then ' ' else c

/-- One token-accumulating step of a character-class split; `acc` holds
the current token in reverse. -/
def splitOnPredGo (p : Char → Bool) : PyStr → PyStr → List PyStr
  | acc, [] => if acc.isEmpty then [] else [acc.reverse]
  | acc, c :: rest =>
    if p c then
      if acc.isEmpty then splitOnPredGo p [] rest
      else acc.reverse :: splitOnPredGo p [] rest
    else splitOnPredGo p (c :: acc) rest

/-- Split on a character class, dropping empty parts (Python
`str.split()` semantics generalized to a predicate). -/
def splitOnPred (p : Char → Bool) (s : PyStr) : List PyStr :=
  splitOnPredGo p [] s

/-- Python `str.split()` (whitespace split). -/
def pySplitWs (s : PyStr) : List PyStr := splitOnPred pyIsSpaceChar s

/-- `extract_simple_translation_words`: translate punctuation to spaces,
split, clean, keep alphabetic tokens. -/
def extract_simple_translation_words (translation : PyStr) : List PyStr :=
  ((pySplitWs (translation.map translatePunct)).map clean_word).filter pyIsAlphaStr

/-- `ENGLISH_STOPWORDS`. -/
def englishStopwords : List PyStr :=
  ["the", "and", "of", "or", "in", "to", "for", "with",
   "from", "by", "at", "on", "an", "as", "be", "is",
   "are", "was", "were", "been", "have", "has", "had",
   "will", "would", "could", "should", "may", "might",
   "can", "must"].map String.data

/-- POS filter configuration (`POS_FILTERS`). -/
structure PosFilters where
  includeTags : List PyStr
  skipPlurals : Bool
deriving DecidableEq

/-- The default `POS_FILTERS`: include n/adj/adv/v, skip plurals. -/
def POS_FILTERS : PosFilters :=
  ⟨["n", "adj", "adv", "v"].map String.data, true⟩

/-- The scanning automaton behind `extract_pos_tags`: `none` outside a
tag, `some acc` inside one with the body accumulated in reverse.  This
realizes regex `<([^>]+)>` findall: from each `<`, the body is the run
of non-`>` characters (which may itself contain `<`), and a closing `>`
with a non-empty body is required; scanning resumes after the `>`. -/
def posTagsGo : Option PyStr → PyStr → List PyStr
  | _, [] => []
  | none, c :: rest =>
    if c = '<' then posTagsGo (some []) rest else posTagsGo none rest
  | some acc, c :: rest =>
    if c = '>' then
      if acc.isEmpty then posTagsGo none rest
      else acc.reverse :: posTagsGo none rest
    else posTagsGo (some (c :: acc)) rest

/-- `extract_pos_tags`: all `<...>` tags (regex `<([^>]+)>` findall). -/
def extract_pos_tags (line : PyStr) : List PyStr := posTagsGo none line

/-- `base_pos_types` from `extract_base_pos_types`. -/
def basePosTypes : List PyStr := ["n", "adj", "adv", "v", "pl"].map String.data

/-- `extended_pos_types` from `extract_base_pos_types`. -/
def extendedPosTypes : List PyStr :=
  ["pn", "phraseologicalUnit", "interjection", "preposition",
   "pronoun", "conjunction", "numeral", "determiner",
   "int", "prep", "pron", "conj", "num", "vt", "vi", "art"].map String.data

/-- `extract_base_pos_types`: split a tag on commas/whitespace and keep
the recognized base POS tokens (each token is lower-cased first, exactly
as in the source, so the mixed-case list entry can never match). -/
def extract_base_pos_types (tag : PyStr) : List PyStr :=
  ((splitOnPred (fun c => c = ',' || pyIsSpaceChar c) (pyStrip tag)).map
      (fun p => pyStrip (p.map toLowerAscii))).filter
    (fun p => basePosTypes.contains p || extendedPosTypes.contains p)

/-- `should_include_word_by_pos`. -/
def should_include_word_by_pos (line : PyStr) (filters : PosFilters) : Bool :=
  if filters.includeTags.isEmpty then true
  else
    let tags := extract_pos_tags line
    if tags.isEmpty then true
    else if filters.skipPlurals &&
        tags.any (fun t => (extract_base_pos_types t).contains "pl".data) then
      false
    else
      tags.any (fun t =>
        (extract_base_pos_types t).any (fun b => filters.includeTags.contains b))

/-- The technical-abbreviation denylist of `is_valid_word`. -/
def technicalDenylist : List PyStr :=
  ["ADN", "ARN", "ATP", "ADSL", "USB", "DVD", "AAO", "ABP", "AFI",
   "AMPA", "ACS", "ANPE", "ATB"].map String.data

/-- The extra accented/letter characters allowed by `is_valid_word`. -/
def validExtraChars : PyStr :=
  "\x27-áàâäéèêëíìîïóòôöúùûüýÿñçłśźżąęćńłžčšđ".data

/-- `is_valid_word`.  The alphanumeric-fraction test `count < len * 0.6`
is modelled exactly over the rationals as `10 * count < 6 * len`. -/
def is_valid_word (word : PyStr) : Bool :=
  if word.isEmpty || word.length < 3 then false
  else
    let w := pyStrip word
    if w.isEmpty || w.length < 3 then false
    else if technicalDenylist.contains (w.map toUpperAscii) then false
    else if 10 * (w.countP pyIsAlnum) < 6 * w.length then false
    else w.all (fun c => pyIsAlnum c || pyIsSpaceChar c || validExtraChars.contains c)

/-- Inclusive code-point range test. -/
def inRange (n lo hi : Nat) : Bool := lo ≤ n && n ≤ hi

/-- The script tags of the classifier. -/
inductive Script where
  | arabic | cyrillic | cjk | devanagari | latin
deriving DecidableEq

/-- `is_cjk_character`: hiragana, katakana or unified CJK. -/
def is_cjk_character (c : Char) : Bool :=
  inRange c.toNat 0x3040 0x309F || inRange c.toNat 0x30A0 0x30FF ||
  inRange c.toNat 0x4E00 0x9FAF

/-- `contains_cjk`. -/
def contains_cjk (l : PyStr) : Bool := l.any is_cjk_character

/-- `UNICODE_RANGES` lookup as used by `is_script_character`; the keys
`cjk` and `latin` are absent from the table, so they map to `none`. -/
def scriptMainRange : Script → Option (Nat × Nat)
  | .arabic => some (0x0600, 0x06FF)
  | .cyrillic => some (0x0400, 0x04FF)
  | .devanagari => some (0x0900, 0x097F)
  | .cjk => none
  | .latin => none

/-- `is_script_character` (false for scripts not in `UNICODE_RANGES`). -/
def is_script_character (c : Char) (s : Script) : Bool :=
  match scriptMainRange s with
  | some (lo, hi) => inRange c.toNat lo hi
  | none => false

/-- The separator class of `_yield_words_by_script` for CJK
(regex `[,，、。；;]+|\s+`). -/
def cjkSepChar (c : Char) : Bool :=
  c = ',' || c = '，' || c = '、' || c = '。' || c = '；' || c = ';'

/-- The strip set of `_yield_words_by_script` for CJK parts. -/
def cjkStripChars : PyStr := ".,，、。；; ".data

/-- `_yield_words_by_script`. -/
def _yield_words_by_script (line : PyStr) (s : Script) : List PyStr :=
  if s = .cjk then
    ((splitOnPred (fun c => cjkSepChar c || pyIsSpaceChar c) (pyStrip line)).map
        (stripCharSet cjkStripChars)).filter
      (fun w => !w.isEmpty && contains_cjk w)
  else
    let ranges : List (Nat × Nat) :=
      match s with
      | .arabic => [(0x0600, 0x06FF)]
      | .cyrillic => [(0x0400, 0x04FF)]
      | .devanagari => [(0x0900, 0x097F)]
      | _ => []
    ((pySplitWs line).map clean_word).filter
      (fun w => !w.isEmpty && 2 ≤ w.length &&
        w.all (fun c => ranges.any (fun r => inRange c.toNat r.1 r.2) ||
          c = ' ' || c = '-'))

/-- The per-character classification chain of
`detect_target_language_script` (the `elif` ladder over code points;
printable ASCII counts as latin). -/
def charScriptClass (c : Char) : Option Script :=
  let code := c.toNat
  if 0x0600 ≤ code && code ≤ 0x06FF then some .arabic
  else if 0x0400 ≤ code && code ≤ 0x04FF then some .cyrillic
  else if (0x4E00 ≤ code && code ≤ 0x9FAF) || (0x3040 ≤ code && code ≤ 0x309F) ||
      (0x30A0 ≤ code && code ≤ 0x30FF) then some .cjk
  else if 0x0900 ≤ code && code ≤ 0x097F then some .devanagari
  else if 0x0020 ≤ code && code ≤ 0x007F then some .latin
  else none

/-- `collections.Counter` increment: bump an existing key or append a new
one (first-insertion order is preserved, as in the Python `Counter`). -/
def bumpCount : List (Script × Nat) → Script → List (Script × Nat)
  | [], k => [(k, 1)]
  | (k', v) :: rest, k =>
    if k' = k then (k', v + 1) :: rest else (k', v) :: bumpCount rest k

/-- Tally one line of characters into the counter. -/
def tallyLine (m : List (Script × Nat)) (line : PyStr) : List (Script × Nat) :=
  line.foldl (fun acc c =>
    match charScriptClass c with
    | some k => bumpCount acc k
    | none => acc) m

/-- Tally at most `fuel` lines (the `if i >= sample_size: break` bound). -/
def scriptTally : List PyStr → Nat → List (Script × Nat) → List (Script × Nat)
  | [], _, m => m
  | line :: rest, fuel, m =>
    if fuel = 0 then m else scriptTally rest (fuel - 1) (tallyLine m line)

/-- Python `max(counts, key=counts.get)` over a non-empty counter: the
first key attaining the maximal count, in insertion order. -/
def argmaxFirst : List (Script × Nat) → Script
  | [] => .latin
  | p :: rest => (rest.foldl (fun best q => if best.2 < q.2 then q else best) p).1

/-- `detect_target_language_script`: tally scripts over a bounded sample,
discard latin when any other script occurred, return the dominant
script, defaulting to latin. -/
def detect_target_language_script (lines : List PyStr) (sampleSize : Nat) : Script :=
  let counts := scriptTally lines sampleSize []
  if counts.isEmpty then .latin
  else
    let nonLatin := counts.filter (fun p => p.1 ≠ .latin)
    if nonLatin.isEmpty then .latin
    else argmaxFirst nonLatin

/-- The language role requested from an extraction strategy. -/
inductive Lang where
  | source | target
deriving DecidableEq

/-- The `.dz` role inversion: `"target" if lang == "source" else "source"`. -/
def oppLang : Lang → Lang
  | .source => .target
  | .target => .source

/-- Result of `detect_alternating_pattern`. -/
inductive AltPattern where
  | sourceTarget | targetSource | unknown
deriving DecidableEq

/-- The header substrings checked inside `detect_alternating_pattern`. -/
def altHeaderMarkers : List PyStr :=
  ["00-database", "Author:", "Size:"].map String.data

/-- One sampling step of `detect_alternating_pattern`: does the stripped
pair at `i` contribute a `source-target` or `target-source` sample? -/
def altPairSample (line1 line2 : PyStr) : Option AltPattern :=
  if !line1.isEmpty && !line2.isEmpty &&
      !altHeaderMarkers.any (fun h => containsSubstr line1 h) &&
      !altHeaderMarkers.any (fun h => containsSubstr line2 h) then
    let hasPron1 := has_pronunciation_markers line1
    let hasPron2 := has_pronunciation_markers line2
    if hasPron1 && pyIsAlphaStr (normalize_word line2) && !hasPron2 then
      some .sourceTarget
    else if hasPron2 && pyIsAlphaStr (normalize_word line1) && !hasPron1 then
      some .targetSource
    else none
  else none

/-- The sampling loop of `detect_alternating_pattern` over
`range(50, min(200, len-1))`, collecting up to five samples.  The first
argument counts the remaining loop iterations (a Python `for i in
range(a, b)` runs exactly `b - a` times), so the loop is structurally
recursive and still reads the lines through `Option`-valued indexing. -/
def altLoop (lines : List PyStr) : Nat → Nat → List AltPattern →
    Option (List AltPattern)
  | 0, _, samples => some samples
  | fuel + 1, i, samples =>
    match lines.get? i, lines.get? (i + 1) with
    | some raw1, some raw2 =>
      let line1 := pyStrip raw1
      let line2 := pyStrip raw2
      match altPairSample line1 line2 with
      | some p =>
        let samples' := samples ++ [p]
        if 5 ≤ samples'.length then some samples'
        else altLoop lines fuel (i + 1) samples'
      | none => altLoop lines fuel (i + 1) samples
    | _, _ => none

/-- `detect_alternating_pattern`: majority over the collected samples,
`unknown` on a tie or when no sample qualified. -/
def detect_alternating_pattern (lines : List PyStr) : Option AltPattern :=
  match altLoop lines (min 200 (lines.length - 1) - 50) 50 [] with
  | none => none
  | some samples =>
    if samples.isEmpty then some .unknown
    else
      let st := samples.count .sourceTarget
      let ts := samples.count .targetSource
      if ts < st then some .sourceTarget
      else if st < ts then some .targetSource
      else some .unknown

/-- The pronunciation-plus-POS pre-check of `detect_simple_format` over
the first 200 raw lines. -/
def simplePronPosPreCheck (lines : List PyStr) : Bool :=
  (lines.take 200).any (fun l =>
    l.contains '/' && l.contains '<' && l.contains '>')

/-- The URL/technical tokens excluded by `detect_simple_format`. -/
def simpleUrlTokens : List PyStr :=
  ["http", "www", "email", "@", "creating", "makefile"].map String.data

/-- The markers excluded by `detect_simple_format`. -/
def simpleMarkers : List PyStr :=
  ["/", "<", ">", "1.", "2.", "*"].map String.data

/-- Does position `i` of the `detect_simple_format` scan count towards the
pattern threshold?  `line` and `nextLine` are the stripped lines at `i`
and `i+1`; the `continue` guards and the final pattern test are folded
into one conjunction. -/
def simpleQual (line nextLine : PyStr) : Bool :=
  !line.isEmpty &&
  !is_header_line line &&
  !contains_year line &&
  !(50 < line.length) &&
  !(line.contains ':' && !listStartsWith "-".data line) &&
  (!nextLine.isEmpty &&
    !(listStartsWith " ".data line || listStartsWith "\t".data line) &&
    !simpleMarkers.any (fun mk => containsSubstr line mk) &&
    line.length ≤ 30 &&
    !listStartsWith ":".data line.reverse &&
    !simpleUrlTokens.any (fun t => containsSubstr (line.map toLowerAscii) t))

/-- The counting loop of `detect_simple_format` over
`range(50, min(400, len-1))` with early success at three matches; the
first argument counts the remaining iterations. -/
def simpleLoop (lines : List PyStr) : Nat → Nat → Nat → Option Bool
  | 0, _, _ => some false
  | fuel + 1, i, cnt =>
    match lines.get? i, lines.get? (i + 1) with
    | some raw1, some raw2 =>
      let cnt' := if simpleQual (pyStrip raw1) (pyStrip raw2) then cnt + 1 else cnt
      if 3 ≤ cnt' then some true else simpleLoop lines fuel (i + 1) cnt'
    | _, _ => none

/-- `detect_simple_format`. -/
def detect_simple_format (lines : List PyStr) : Option Bool :=
  if simplePronPosPreCheck lines then some false
  else simpleLoop lines (min 400 (lines.length - 1) - 50) 50 0

/-- The qualifying-triple test of `detect_multiline_format` on the three
stripped lines at `i`, `i+1`, `i+2`. -/
def multilineTriple (line1 line2 line3 : PyStr) : Bool :=
  !line1.isEmpty && !line2.isEmpty && !line3.isEmpty &&
  line1.contains '/' && line1.contains '<' &&
  !line2.contains '/' &&
  (line3.contains '.' || 8 < (pySplitWs line3).length)

/-- The counting loop of `detect_multiline_format` over
`range(50, min(150, len-2))` with early success at five matches; the
first argument counts the remaining iterations. -/
def multilineLoop (lines : List PyStr) : Nat → Nat → Nat → Option Bool
  | 0, _, _ => some false
  | fuel + 1, i, cnt =>
    match lines.get? i, lines.get? (i + 1), lines.get? (i + 2) with
    | some raw1, some raw2, some raw3 =>
      let cnt' :=
        if multilineTriple (pyStrip raw1) (pyStrip raw2) (pyStrip raw3) then
          cnt + 1
        else cnt
      if 5 ≤ cnt' then some true else multilineLoop lines fuel (i + 1) cnt'
    | _, _, _ => none

/-- `detect_multiline_format`. -/
def detect_multiline_format (lines : List PyStr) : Option Bool :=
  multilineLoop lines (min 150 (lines.length - 2) - 50) 50 0

/-- Translation-word extraction on the non-pronunciation line of an
alternating pair: commas/semicolons to spaces, split, clean, keep tokens
of length ≥ 2 that are alphabetic once normalized and single-byte
encodable. -/
def pairTranslationWords (line2 : PyStr) : List PyStr :=
  let cleanedLine := line2.map (fun c => if c = ',' || c = ';' then ' ' else c)
  ((pySplitWs cleanedLine).map clean_word).filter
    (fun w => !w.isEmpty && 2 ≤ w.length && pyIsAlphaStr (normalize_word w) &&
      w.all (fun c => c.toNat < 256))

/-- Headword extraction from a pronunciation line:
`extract_pronunciation_word` followed by `is_valid_word`. -/
def validPronWord (line : PyStr) : List PyStr :=
  match extract_pronunciation_word line with
  | some w => if is_valid_word w then [w] else []
  | none => []

/-- The words contributed by one iteration of the
`extract_words_with_pattern_detection` pair loop (stripped lines at `i`
and `i+1`). -/
def pairContribution (pat : AltPattern) (lang : Lang) (line1 line2 : PyStr) :
    List PyStr :=
  if line1.isEmpty || line2.isEmpty ||
      is_header_line line1 || is_header_line line2 then []
  else
    let hasPron1 := has_pronunciation_markers line1
    let hasPron2 := has_pronunciation_markers line2
    match pat with
    | .sourceTarget =>
      if lang = .source && hasPron1 && !hasPron2 then
        if !should_include_word_by_pos line1 POS_FILTERS then []
        else validPronWord line1
      else if lang = .target && !hasPron2 && hasPron1 then
        if !should_include_word_by_pos line2 POS_FILTERS then []
        else pairTranslationWords line2
      else []
    | .targetSource =>
      if lang = .target && hasPron1 && !hasPron2 then
        if !should_include_word_by_pos line1 POS_FILTERS then []
        else validPronWord line1
      else if lang = .source && !hasPron2 && hasPron1 then
        if !should_include_word_by_pos line2 POS_FILTERS then []
        else pairTranslationWords line2
      else []
    | .unknown => []

/-- The pair loop of `extract_words_with_pattern_detection` over
`range(len(lines)-1)`; the first argument counts the remaining
iterations. -/
def pairLoop (lines : List PyStr) (lang : Lang) (pat : AltPattern) :
    Nat → Nat → Option (List PyStr)
  | 0, _ => some []
  | fuel + 1, i =>
    match lines.get? i, lines.get? (i + 1) with
    | some raw1, some raw2 =>
      match pairLoop lines lang pat fuel (i + 1) with
      | some rest =>
        some (pairContribution pat lang (pyStrip raw1) (pyStrip raw2) ++ rest)
      | none => none
    | _, _ => none

/-- `str.replace('2.', ' ')` (left-to-right, non-overlapping). -/
def replaceTwoDotWithSpace : PyStr → PyStr
  | [] => []
  | '2' :: '.' :: rest => ' ' :: replaceTwoDotWithSpace rest
  | c :: rest => c :: replaceTwoDotWithSpace rest

/-- The words contributed by one qualifying entry of the multiline
strategy (`extract_multiline_format_words`). -/
def multilineEntryWords (lang : Lang) (line1 line2 : PyStr) : List PyStr :=
  match lang with
  | .source => validPronWord line1
  | .target =>
    let cleanedLine := replaceTwoDotWithSpace
      (line2.map (fun c => if c = ',' || c = ';' then ' ' else c))
    ((pySplitWs cleanedLine).map clean_word).filter
      (fun w => !w.isEmpty && 3 ≤ w.length && pyIsAlphaStr (normalize_word w) &&
        w.all (fun c => c.toNat < 256) &&
        !englishStopwords.contains (w.map toLowerAscii))

/-- The `while i < len(lines) - 2` walk of
`extract_multiline_format_words`: stride 3 on a qualifying entry,
stride 1 otherwise.  The cursor `i` advances by at least one per
iteration, so a fuel of `lines.length` always suffices; exhausted fuel
with the `while` condition still true is reported as `none`. -/
def multilineWordsLoop (lines : List PyStr) (lang : Lang) :
    Nat → Nat → Option (List PyStr)
  | 0, i => if i < lines.length - 2 then none else some []
  | fuel + 1, i =>
    if i < lines.length - 2 then
      match lines.get? i, lines.get? (i + 1), lines.get? (i + 2) with
      | some raw1, some raw2, some _ =>
        let line1 := pyStrip raw1
        let line2 := pyStrip raw2
        if !line1.isEmpty && !line2.isEmpty &&
            line1.contains '/' && line1.contains '<' &&
            !line2.contains '/' && !line2.contains '<' then
          if !should_include_word_by_pos line1 POS_FILTERS then
            multilineWordsLoop lines lang fuel (i + 1)
          else
            match multilineWordsLoop lines lang fuel (i + 3) with
            | some rest => some (multilineEntryWords lang line1 line2 ++ rest)
            | none => none
        else multilineWordsLoop lines lang fuel (i + 1)
      | _, _, _ => none
    else some []

/-- `extract_multiline_format_words`. -/
def extract_multiline_format_words (lines : List PyStr) (lang : Lang) :
    Option (List PyStr) :=
  multilineWordsLoop lines lang lines.length 0

/-- `extract_words_with_pattern_detection`: fall through to the multiline
strategy when `detect_multiline_format` fires, otherwise walk
consecutive pairs under the detected alternating pattern. -/
def extract_words_with_pattern_detection (lines : List PyStr) (lang : Lang)
    (pat : AltPattern) : Option (List PyStr) :=
  match detect_multiline_format lines with
  | none => none
  | some true => extract_multiline_format_words lines lang
  | some false => pairLoop lines lang pat (lines.length - 1) 0

/-- The source-role word test shared by `_extract_simple_format_words`
and `_extract_with_header_skip`. -/
def simpleSourceWord (line : PyStr) : List PyStr :=
  let cleanLine := clean_word line
  if !cleanLine.isEmpty && 1 ≤ cleanLine.length &&
      !cleanLine.any pyIsDigit &&
      !"()[]<>/\\".data.any (fun c => cleanLine.contains c) &&
      should_include_word_by_pos line POS_FILTERS then [cleanLine]
  else []

/-- `_extract_simple_format_words`: a forward cursor consuming one line,
then its successor, skipping headers and blanks one line at a time. -/
def _extract_simple_format_words : List PyStr → Lang → List PyStr
  | [], _ => []
  | raw :: rest, lang =>
    let line := pyStrip raw
    if line.isEmpty || is_header_line line then
      _extract_simple_format_words rest lang
    else
      let nextLine := pyStrip (rest.headD [])
      let ws :=
        match lang with
        | .source => simpleSourceWord line
        | .target =>
          if !nextLine.isEmpty then extract_simple_translation_words nextLine
          else []
      ws ++ _extract_simple_format_words rest.tail lang
  termination_by l _ => l.length
  decreasing_by
    · simp only [List.length_cons]
      omega
    · simp only [List.length_cons, List.length_tail]
      omega

/-- The candidate test of the header-skip start scan. -/
def headerSkipCandidate (line : PyStr) : Bool :=
  line.length ≤ 30 && !(normalize_word line).isEmpty &&
  !"/<>*()".data.any (fun c => line.contains c)

/-- The start-index scan of `_extract_with_header_skip` (a
`for i in range(len(lines))` loop with a `break`): first plausible
headword whose successor is strictly longer; `0` when none is found.
The first argument counts the remaining iterations. -/
def headerSkipStart (lines : List PyStr) : Nat → Nat → Option Nat
  | 0, _ => some 0
  | fuel + 1, i =>
    match lines.get? i with
    | some raw =>
      let line := pyStrip raw
      if line.isEmpty || is_header_line line || contains_year line ||
          50 < line.length || line.contains ':' then
        headerSkipStart lines fuel (i + 1)
      else if headerSkipCandidate line && i + 1 < lines.length then
        match lines.get? (i + 1) with
        | some nraw =>
          let nextLine := pyStrip nraw
          if !nextLine.isEmpty && line.length < nextLine.length then some i
          else headerSkipStart lines fuel (i + 1)
        | none => none
      else headerSkipStart lines fuel (i + 1)
    | none => none

/-- The words contributed by one pair of the header-skip walk. -/
def headerSkipPair (lang : Lang) (line nextLine : PyStr) : List PyStr :=
  match lang with
  | .source => simpleSourceWord line
  | .target =>
    if !nextLine.isEmpty then extract_simple_translation_words nextLine else []

/-- The non-overlapping pair walk of `_extract_with_header_skip`
(`while i < len(lines) - 1`): advance by one past a blank line, by two
past an extracted pair.  The cursor advances by at least one per
iteration, so a fuel of `lines.length` always suffices; exhausted fuel
with the `while` condition still true is reported as `none`. -/
def headerSkipPairsLoop (lines : List PyStr) (lang : Lang) :
    Nat → Nat → Option (List PyStr)
  | 0, i => if i + 1 < lines.length then none else some []
  | fuel + 1, i =>
    if i + 1 < lines.length then
      match lines.get? i, lines.get? (i + 1) with
      | some raw1, some raw2 =>
        let line := pyStrip raw1
        let nextLine := pyStrip raw2
        if line.isEmpty || nextLine.isEmpty then
          headerSkipPairsLoop lines lang fuel (i + 1)
        else
          match headerSkipPairsLoop lines lang fuel (i + 2) with
          | some rest => some (headerSkipPair lang line nextLine ++ rest)
          | none => none
      | _, _ => none
    else some []

/-- `_extract_with_header_skip`. -/
def _extract_with_header_skip (lines : List PyStr) (lang : Lang) :
    Option (List PyStr) :=
  match headerSkipStart lines lines.length 0 with
  | none => none
  | some s => headerSkipPairsLoop lines lang lines.length s

/-- The IPA characters checked in the latin-target branch of
`extract_words_by_script_detection`. -/
def ipaTargetChars : PyStr := "ˈˌɑɛɪəɹθð".data

/-- The words contributed by one stripped line of
`extract_words_by_script_detection`. -/
def scriptLineWords (line : PyStr) (lang : Lang) (targetScript : Script) :
    List PyStr :=
  if line.isEmpty || is_header_line line then []
  else if !should_include_word_by_pos line POS_FILTERS then []
  else
    match lang with
    | .source =>
      if line.contains '/' then validPronWord line
      else if pyIsAlphaStr (normalize_word line) && 2 ≤ line.length &&
          line.all (fun c => c.toNat < 256) &&
          !line.any (fun c => 0x0600 ≤ c.toNat && c.toNat ≤ 0x06FF) then [line]
      else []
    | .target =>
      if targetScript = .arabic || targetScript = .cyrillic ||
          targetScript = .devanagari || targetScript = .cjk then
        if (targetScript = .cjk && contains_cjk line) ||
            (targetScript ≠ .cjk &&
              line.any (fun c => is_script_character c targetScript)) then
          _yield_words_by_script line targetScript
        else []
      else
        if !(line.contains '/' &&
              line.any (fun c => ipaTargetChars.contains c)) &&
            pyIsAlphaStr (normalize_word line) then [line]
        else []

/-- `extract_words_by_script_detection`. -/
def extract_words_by_script_detection (lines : List PyStr) (lang : Lang)
    (targetScript : Script) : List PyStr :=
  lines.foldr (fun raw acc => scriptLineWords (pyStrip raw) lang targetScript ++ acc) []

/-- `line.rstrip('\n')`. -/
def rstripNewline (l : PyStr) : PyStr :=
  (l.reverse.dropWhile (fun c => c = '\n')).reverse

/-- `extract_words_from_gzip_content`: the whole layout-detection and
extraction pipeline for line-oriented dictionaries. -/
def extract_words_from_gzip_content (linesIter : List PyStr) (lang : Lang)
    (isDzFile : Bool) : Option (List PyStr) :=
  let lines := linesIter.map rstripNewline
  let targetScript := detect_target_language_script lines 500
  if targetScript = .arabic || targetScript = .cyrillic ||
      targetScript = .cjk || targetScript = .devanagari then
    some (extract_words_by_script_detection lines lang targetScript)
  else
    match detect_alternating_pattern lines with
    | none => none
    | some pat =>
      if pat = .sourceTarget || pat = .targetSource then
        if isDzFile && pat = .targetSource then
          extract_words_with_pattern_detection lines (oppLang lang) pat
        else
          extract_words_with_pattern_detection lines lang pat
      else
        match detect_simple_format lines with
        | none => none
        | some simpleFormat =>
          if simpleFormat then some (_extract_simple_format_words lines lang)
          else
            match detect_multiline_format lines with
            | none => none
            | some multilineFormat =>
              if multilineFormat then extract_multiline_format_words lines lang
              else _extract_with_header_skip lines lang
/-- Is a byte a UTF-8 continuation byte (`0x80–0xBF`)? -/
def isUtf8Cont (b : Nat) : Bool := 0x80 ≤ b && b ≤ 0xBF

/-- `bytes.decode('utf-8', errors='ignore')`: decode a byte sequence,
skipping the bytes of invalid or truncated sequences instead of
raising.  The first argument counts remaining iterations (each step
consumes at least one byte, so `bs.length` fuel always suffices). -/
def decodeUtf8Loop : Nat → List Nat → List Char
  | 0, _ => []
  | _ + 1, [] => []
  | fuel + 1, b :: rest =>
    if b < 0x80 then Char.ofNat b :: decodeUtf8Loop fuel rest
    else if 0xC2 ≤ b && b ≤ 0xDF then
      match rest with
      | b2 :: rest2 =>
        if isUtf8Cont b2 then
          Char.ofNat ((b - 0xC0) * 0x40 + (b2 - 0x80)) :: decodeUtf8Loop fuel rest2
        else decodeUtf8Loop fuel rest
      | [] => []
    else if 0xE0 ≤ b && b ≤ 0xEF then
      match rest with
      | b2 :: rest2 =>
        let contOk :=
          if b = 0xE0 then 0xA0 ≤ b2 && b2 ≤ 0xBF
          else if b = 0xED then 0x80 ≤ b2 && b2 ≤ 0x9F
          else isUtf8Cont b2
        if contOk then
          match rest2 with
          | b3 :: rest3 =>
            if isUtf8Cont b3 then
              Char.ofNat ((b - 0xE0) * 0x1000 + (b2 - 0x80) * 0x40 + (b3 - 0x80)) ::
                decodeUtf8Loop fuel rest3
            else decodeUtf8Loop fuel rest2
          | [] => []
        else decodeUtf8Loop fuel rest
      | [] => []
    else if 0xF0 ≤ b && b ≤ 0xF4 then
      match rest with
      | b2 :: rest2 =>
        let contOk :=
          if b = 0xF0 then 0x90 ≤ b2 && b2 ≤ 0xBF
          else if b = 0xF4 then 0x80 ≤ b2 && b2 ≤ 0x8F
          else isUtf8Cont b2
        if contOk then
          match rest2 with
          | b3 :: rest3 =>
            if isUtf8Cont b3 then
              match rest3 with
              | b4 :: rest4 =>
                if isUtf8Cont b4 then
                  Char.ofNat ((b - 0xF0) * 0x40000 + (b2 - 0x80) * 0x1000 +
                      (b3 - 0x80) * 0x40 + (b4 - 0x80)) :: decodeUtf8Loop fuel rest4
                else decodeUtf8Loop fuel rest3
              | [] => []
            else decodeUtf8Loop fuel rest2
          | [] => []
        else decodeUtf8Loop fuel rest
      | [] => []
    else decodeUtf8Loop fuel rest

/-- `bytes.decode('utf-8', errors='ignore')` on a whole buffer. -/
def decodeUtf8Ignore (bs : List Nat) : List Char := decodeUtf8Loop bs.length bs

/-- `bytes.find(b'\x00')`: index of the first null byte. -/
def findNullIdx : List Nat → Option Nat
  | [] => none
  | b :: rest =>
    if b = 0 then some 0 else (findNullIdx rest).map (· + 1)

/-- Big-endian unsigned integer value of a byte list
(`struct.unpack('>I', ...)` on four bytes). -/
def be32Of (l : List Nat) : Nat := l.foldl (fun acc b => acc * 256 + b) 0

/-- The primary index-parsing pass of `extract_words_from_stardict`,
expressed on the unread suffix of the index buffer (Python tracks an
absolute `pos`; `bytes.find(b'\x00', pos)` on the whole buffer equals
the search on the suffix).  Returns the parsed `(word, definition)`
entries and the number of bytes consumed (Python's final `pos`).
A record whose offset is at or beyond the data buffer's length yields no
entry; an in-bounds offset with an overlong size is clamped to the
remaining bytes. -/
def parseEntriesLoop (dictData : List Nat) : Nat → List Nat →
    List (PyStr × PyStr) × Nat
  | 0, _ => ([], 0)
  | fuel + 1, idx =>
    match findNullIdx idx with
    | none => ([], 0)
    | some nullPos =>
      let wordBytes := idx.take nullPos
      let rest := idx.drop (nullPos + 1)
      if rest.length < 8 then ([], nullPos + 1)
      else
        let off := be32Of (rest.take 4)
        let sz := be32Of ((rest.drop 4).take 4)
        let parsed := parseEntriesLoop dictData fuel (rest.drop 8)
        let here :=
          if off < dictData.length then
            [(decodeUtf8Ignore wordBytes,
              decodeUtf8Ignore ((dictData.drop off).take (min sz (dictData.length - off))))]
          else []
        (here ++ parsed.1, nullPos + 9 + parsed.2)

/-- The primary pass on a whole index buffer.  Every iteration consumes
at least nine bytes, so a fuel of `idx.length` always suffices (the
fuel-0 base case coincides with the loop's exit on an empty suffix). -/
def parseEntriesCore (dictData : List Nat) (idx : List Nat) :
    List (PyStr × PyStr) × Nat :=
  parseEntriesLoop dictData idx.length idx

/-- The recovery pass of `extract_words_from_stardict`: re-walk the index
extracting only headwords, skipping the offset data; a headword is kept
for the source role when its cleaned form is valid and it is not among
the already-parsed entry words.  Returns the recovered words and their
count (`direct_words`). -/
def recoverLoop (existing : List PyStr) (lang : Lang) : Nat → List Nat →
    List PyStr × Nat
  | 0, _ => ([], 0)
  | fuel + 1, idx =>
    match findNullIdx idx with
    | none => ([], 0)
    | some nullPos =>
      let word := decodeUtf8Ignore (idx.take nullPos)
      let rest := idx.drop (nullPos + 1)
      if rest.length < 8 then ([], 0)
      else
        let recovered := recoverLoop existing lang fuel (rest.drop 8)
        if lang = .source then
          let cleanedWord := clean_word word
          if is_valid_word cleanedWord && !existing.contains word then
            (cleanedWord :: recovered.1, recovered.2 + 1)
          else recovered
        else recovered

/-- The recovery pass on a whole index buffer (fuel as in
`parseEntriesCore`). -/
def recoverCore (existing : List PyStr) (lang : Lang) (idx : List Nat) :
    List PyStr × Nat :=
  recoverLoop existing lang idx.length idx

/-- The buffer-level core of `extract_words_from_stardict` (the
surrounding file discovery and gzip reads are external I/O): parse the
index against the data buffer, run the recovery pass when the number of
parsed entries is suspiciously low (`len(entries) < pos // 12`), then
collect source-role headwords from the parsed entries; target-role
extraction is unsupported for this format.  Returns the word list and
the recovered-word count. -/
def extract_words_from_stardict (idxData dictData : List Nat) (lang : Lang) :
    List PyStr × Nat :=
  let parsed := parseEntriesCore dictData idxData
  let entries := parsed.1
  let recovered :=
    if entries.length < parsed.2 / 12 then
      recoverCore (entries.map Prod.fst) lang idxData
    else ([], 0)
  let entryWords := entries.filterMap (fun e =>
    match lang with
    | .source =>
      let cleanedWord := clean_word e.1
      if is_valid_word cleanedWord then some cleanedWord else none
    | .target => none)
  (recovered.1 ++ entryWords, recovered.2)

/-- A StarDict index record before serialization: raw headword bytes and
the 32-bit big-endian offset and size fields. -/
structure IdxRecord where
  wordBytes : List Nat
  offset : Nat
  size : Nat
deriving DecidableEq

/-- The four big-endian bytes of a 32-bit value. -/
def be32Bytes (n : Nat) : List Nat :=
  [n / 0x1000000 % 256, n / 0x10000 % 256, n / 0x100 % 256, n % 256]

/-- Serialize one index record: null-terminated word bytes followed by
the 8-byte offset/size pair. -/
def encodeRecord (r : IdxRecord) : List Nat :=
  r.wordBytes ++ 0 :: (be32Bytes r.offset ++ be32Bytes r.size)

/-- Serialize a list of index records into an index buffer. -/
def encodeIndex : List IdxRecord → List Nat
  | [] => []
  | r :: rs => encodeRecord r ++ encodeIndex rs

/-- A record is well formed when its word bytes contain no null
terminator and its offset and size fit in 32 bits. -/
def WellFormedRecord (r : IdxRecord) : Prop :=
  (∀ b ∈ r.wordBytes, b ≠ 0) ∧ r.offset < 2 ^ 32 ∧ r.size < 2 ^ 32

/-- What the primary pass produces for one record: nothing when the
offset is at or beyond the data buffer's length, otherwise the decoded
word paired with the definition slice clamped to the remaining bytes. -/
def primEntry (dictData : List Nat) (r : IdxRecord) : Option (PyStr × PyStr) :=
  if r.offset < dictData.length then
    some (decodeUtf8Ignore r.wordBytes,
      decodeUtf8Ignore ((dictData.drop r.offset).take
        (min r.size (dictData.length - r.offset))))
  else none

/-- What the recovery pass produces for one record under the source
role. -/
def recovEntry (existing : List PyStr) (r : IdxRecord) : Option PyStr :=
  let word := decodeUtf8Ignore r.wordBytes
  let cleanedWord := clean_word word
  if is_valid_word cleanedWord && !existing.contains word then some cleanedWord
  else none

/-! Claim-support definitions: counting views of the detector loops,
claim-verbatim predicates for refinement comparisons, and the concrete
corpora and buffers used by the witnesses and counterexamples. -/

/-- Number of characters of the corpus classified to script `k` by the
per-character chain. -/
def scriptCharCount (k : Script) (lines : List PyStr) : Nat :=
  (lines.map (fun l => l.countP (fun c => charScriptClass c = some k))).sum

/-- Does the (stripped) triple starting at index `j` qualify for
`detect_multiline_format`? -/
def mlTripleAt (lines : List PyStr) (j : Nat) : Bool :=
  multilineTriple (pyStrip (lines.getD j [])) (pyStrip (lines.getD (j + 1) []))
    (pyStrip (lines.getD (j + 2) []))

/-- Number of qualifying triples in the `detect_multiline_format` scan
range `range(50, min(150, len-2))`. -/
def multilineQualCount (lines : List PyStr) : Nat :=
  (List.range' 50 (min 150 (lines.length - 2) - 50)).countP (mlTripleAt lines)

/-- Does the (stripped) pair starting at index `j` qualify for
`detect_simple_format`? -/
def simpleQualAt (lines : List PyStr) (j : Nat) : Bool :=
  simpleQual (pyStrip (lines.getD j [])) (pyStrip (lines.getD (j + 1) []))

/-- Number of qualifying pairs in the `detect_simple_format` scan range
`range(50, min(400, len-1))`. -/
def simpleQualCount (lines : List PyStr) : Nat :=
  (List.range' 50 (min 400 (lines.length - 1) - 50)).countP (simpleQualAt lines)

/-- Four consecutive ASCII digits at the head of the string. -/
def fourDigitsHere : PyStr → Bool
  | a :: b :: c :: d :: _ => pyIsDigit a && pyIsDigit b && pyIsDigit c && pyIsDigit d
  | _ => false

/-- Four consecutive ASCII digits somewhere in the line (the literal
reading of the spec's "4-digit year token"). -/
def hasFourDigitRun : PyStr → Bool
  | [] => false
  | a :: rest => fourDigitsHere (a :: rest) || hasFourDigitRun rest

/-- The multiline-triple condition exactly as the claim states it: line 1
has a slash and an angle bracket, line 2 has neither a slash nor an
angle bracket, line 3 has a period or more than 8 tokens. -/
def c5TripleAsStated (a b c : PyStr) : Bool :=
  !a.isEmpty && !b.isEmpty && !c.isEmpty &&
  a.contains '/' && (a.contains '<' || a.contains '>') &&
  !b.contains '/' && !b.contains '<' && !b.contains '>' &&
  (c.contains '.' || 8 < (pySplitWs c).length)

/-- Number of positions of `[50,150)` whose triple satisfies the claim's
stated condition. -/
def c5CountAsStated (lines : List PyStr) : Nat :=
  (List.range' 50 100).countP (fun j =>
    j + 2 < lines.length &&
    c5TripleAsStated (pyStrip (lines.getD j [])) (pyStrip (lines.getD (j + 1) []))
      (pyStrip (lines.getD (j + 2) [])))

/-- The simple-format qualifying condition exactly as the claim states
it (with "4-digit year token" read literally). -/
def c6QualAsStated (line nextLine : PyStr) : Bool :=
  !line.isEmpty && !is_header_line line && !hasFourDigitRun line &&
  line.length ≤ 50 &&
  !(line.contains ':' && !listStartsWith "-".data line) &&
  !simpleMarkers.any (fun mk => containsSubstr line mk) &&
  !simpleUrlTokens.any (fun t => containsSubstr (line.map toLowerAscii) t) &&
  line.length ≤ 30 && !nextLine.isEmpty

/-- Number of positions of `[50,400)` satisfying the claim's stated
qualifying condition. -/
def c6CountAsStated (lines : List PyStr) : Nat :=
  (List.range' 50 350).countP (fun j =>
    j + 1 < lines.length &&
    c6QualAsStated (pyStrip (lines.getD j [])) (pyStrip (lines.getD (j + 1) [])))

/-- The pronunciation-annotated headword line of the C1 round-trip
corpus. -/
def c1HeadwordLine : PyStr := "casa /ˈkasa/ <n>".data

/-- The 60-line round-trip corpus: blank lines except for the three
headword/translation pairs at lines 50–55. -/
def c1Corpus : List PyStr :=
  List.replicate 50 [] ++
  [c1HeadwordLine, "house".data, c1HeadwordLine, "house".data,
   c1HeadwordLine, "house".data] ++ List.replicate 4 []

/-- A small corpus whose alternating pattern is target-source: a plain
word at line 50 followed by a pronunciation-marked line at 51. -/
def c2Corpus : List PyStr :=
  List.replicate 50 [] ++ ["haus".data, "house /haʊs/".data, []]

/-- A 500-line corpus with 50 Cyrillic characters in its first 100 lines
but 60 Arabic characters as well: Arabic outnumbers Cyrillic. -/
def c3CounterCorpus : List PyStr :=
  [List.replicate 50 'б', List.replicate 60 'ا'] ++ List.replicate 498 []

/-- A 500-line corpus with 50 Cyrillic characters and no other non-Latin
characters. -/
def c3WitnessCorpus : List PyStr :=
  [List.replicate 50 'б'] ++ List.replicate 499 []

/-- One multiline entry whose second line carries an angle-bracket POS
tag but no slash, followed by a blank separator. -/
def c5TripleBlock : List PyStr :=
  ["word /k/ <n>".data, "cat <x>".data, "Definition.".data, []]

/-- A corpus with five such entries starting at line 50. -/
def c5Corpus : List PyStr :=
  List.replicate 50 [] ++
  c5TripleBlock ++ c5TripleBlock ++ c5TripleBlock ++ c5TripleBlock ++ c5TripleBlock

/-- A corpus whose line 0 carries slash and angle brackets (tripping the
pre-check) while lines 50–56 are clean alternating pairs. -/
def c6Corpus : List PyStr :=
  ["x /a/ <n>".data] ++ List.replicate 49 [] ++
  ["gato".data, "cat".data, "perro".data, "dog".data, "casa".data,
   "house".data, "fin".data]

/-- A two-line corpus, shorter than every detection window. -/
def c10Corpus : List PyStr := ["hola".data, "hello".data]

/-- A record whose offset (100) exceeds an empty data buffer: its word
bytes spell `word`. -/
def c7Record : IdxRecord := ⟨[119, 111, 114, 100], 100, 5⟩

/-- A record with an in-bounds offset into a three-byte data buffer: its
word bytes spell `casa`. -/
def c8Record : IdxRecord := ⟨[99, 97, 115, 97], 0, 3⟩

/-- Value associated to a key in the counter (0 when absent). -/
def countLookup : List (Script × Nat) → Script → Nat
  | [], _ => 0
  | (k', v) :: rest, k => if k' = k then v else countLookup rest k

/-! Loop lemmas: the counting loops with early exit are characterized by
the count of qualifying positions over their scan range, and every loop
of the pipeline is `some` on the indices it is actually invoked with. -/

theorem get?_eq_some_getD (l : List PyStr) (j : Nat) (h : j < l.length) :
    l.get? j = some (l.getD j []) := by
  rw [List.getD_eq_get?]
  cases hx : l.get? j with
  | none => rw [List.get?_eq_none] at hx; omega
  | some x => rfl

theorem multilineLoop_eq_count (lines : List PyStr) :
    ∀ fuel i cnt, (∀ j, i ≤ j → j < i + fuel → j + 2 < lines.length) → cnt < 5 →
    multilineLoop lines fuel i cnt =
      some (decide (5 ≤ cnt + (List.range' i fuel).countP (mlTripleAt lines))) := by
  intro fuel
  induction fuel with
  | zero =>
    intro i cnt _ hcnt
    have hd : decide (5 ≤ cnt + (List.range' i 0).countP (mlTripleAt lines)) = false := by
      simp only [List.range', List.countP_nil, Nat.add_zero, decide_eq_false_iff_not]
      omega
    rw [hd]
    rfl
  | succ f ih =>
    intro i cnt hb hcnt
    have h2 : i + 2 < lines.length := hb i (Nat.le_refl i) (by omega)
    have e0 := get?_eq_some_getD lines i (by omega)
    have e1 := get?_eq_some_getD lines (i + 1) (by omega)
    have e2 := get?_eq_some_getD lines (i + 2) h2
    have hrec : ∀ c, c < 5 → multilineLoop lines f (i + 1) c =
        some (decide (5 ≤ c + (List.range' (i + 1) f).countP (mlTripleAt lines))) :=
      fun c hc => ih (i + 1) c (fun j hj1 hj2 => hb j (by omega) (by omega)) hc
    have hsplit : (List.range' i (f + 1)).countP (mlTripleAt lines) =
        (if mlTripleAt lines i then 1 else 0) +
          (List.range' (i + 1) f).countP (mlTripleAt lines) := by
      show (List.countP _ (i :: List.range' (i + 1) f)) = _
      rw [List.countP_cons]
      by_cases hq : mlTripleAt lines i <;> simp [hq] <;> omega
    simp only [multilineLoop, e0, e1, e2]
    by_cases hq : mlTripleAt lines i
    · have hq' : multilineTriple (pyStrip (lines.getD i []))
          (pyStrip (lines.getD (i + 1) [])) (pyStrip (lines.getD (i + 2) [])) = true := hq
      rw [hq']
      simp only [if_pos trivial, hsplit, hq, if_true]
      by_cases h5 : 5 ≤ cnt + 1
      · rw [if_pos h5]
        have : (5 ≤ cnt + (1 + (List.range' (i + 1) f).countP (mlTripleAt lines))) := by omega
        simp [this]
      · rw [if_neg h5, hrec (cnt + 1) (by omega)]
        congr 1
        rw [decide_eq_decide]
        omega
    · have hq0 : mlTripleAt lines i = false := by
        cases h : mlTripleAt lines i
        · rfl
        · exact absurd h hq
      have hq' : multilineTriple (pyStrip (lines.getD i []))
          (pyStrip (lines.getD (i + 1) [])) (pyStrip (lines.getD (i + 2) [])) = false := hq0
      simp only [hq', Bool.false_eq_true, if_false]
      rw [if_neg (by omega : ¬ 5 ≤ cnt), hrec cnt hcnt]
      simp only [hq0, Bool.false_eq_true, if_false] at hsplit
      congr 1
      rw [decide_eq_decide]
      omega

theorem simpleLoop_eq_count (lines : List PyStr) :
    ∀ fuel i cnt, (∀ j, i ≤ j → j < i + fuel → j + 1 < lines.length) → cnt < 3 →
    simpleLoop lines fuel i cnt =
      some (decide (3 ≤ cnt + (List.range' i fuel).countP (simpleQualAt lines))) := by
  intro fuel
  induction fuel with
  | zero =>
    intro i cnt _ hcnt
    have hd : decide (3 ≤ cnt + (List.range' i 0).countP (simpleQualAt lines)) = false := by
      simp only [List.range', List.countP_nil, Nat.add_zero, decide_eq_false_iff_not]
      omega
    rw [hd]
    rfl
  | succ f ih =>
    intro i cnt hb hcnt
    have h1 : i + 1 < lines.length := hb i (Nat.le_refl i) (by omega)
    have e0 := get?_eq_some_getD lines i (by omega)
    have e1 := get?_eq_some_getD lines (i + 1) h1
    have hrec : ∀ c, c < 3 → simpleLoop lines f (i + 1) c =
        some (decide (3 ≤ c + (List.range' (i + 1) f).countP (simpleQualAt lines))) :=
      fun c hc => ih (i + 1) c (fun j hj1 hj2 => hb j (by omega) (by omega)) hc
    have hsplit : (List.range' i (f + 1)).countP (simpleQualAt lines) =
        (if simpleQualAt lines i then 1 else 0) +
          (List.range' (i + 1) f).countP (simpleQualAt lines) := by
      show (List.countP _ (i :: List.range' (i + 1) f)) = _
      rw [List.countP_cons]
      by_cases hq : simpleQualAt lines i <;> simp [hq] <;> omega
    simp only [simpleLoop, e0, e1]
    by_cases hq : simpleQualAt lines i
    · have hq' : simpleQual (pyStrip (lines.getD i []))
          (pyStrip (lines.getD (i + 1) [])) = true := hq
      rw [hq']
      simp only [if_pos trivial, hsplit, hq, if_true]
      by_cases h3 : 3 ≤ cnt + 1
      · rw [if_pos h3]
        have : (3 ≤ cnt + (1 + (List.range' (i + 1) f).countP (simpleQualAt lines))) := by
          omega
        simp [this]
      · rw [if_neg h3, hrec (cnt + 1) (by omega)]
        congr 1
        rw [decide_eq_decide]
        omega
    · have hq0 : simpleQualAt lines i = false := by
        cases h : simpleQualAt lines i
        · rfl
        · exact absurd h hq
      have hq' : simpleQual (pyStrip (lines.getD i []))
          (pyStrip (lines.getD (i + 1) [])) = false := hq0
      simp only [hq', Bool.false_eq_true, if_false]
      rw [if_neg (by omega : ¬ 3 ≤ cnt), hrec cnt hcnt]
      simp only [hq0, Bool.false_eq_true, if_false] at hsplit
      congr 1
      rw [decide_eq_decide]
      omega

theorem altLoop_isSome (lines : List PyStr) :
    ∀ fuel i samples, (∀ j, i ≤ j → j < i + fuel → j + 1 < lines.length) →
    (altLoop lines fuel i samples).isSome := by
  intro fuel
  induction fuel with
  | zero => intro i samples _; simp [altLoop]
  | succ f ih =>
    intro i samples hb
    have h1 : i + 1 < lines.length := hb i (Nat.le_refl i) (by omega)
    have e0 := get?_eq_some_getD lines i (by omega)
    have e1 := get?_eq_some_getD lines (i + 1) h1
    have hrec : ∀ ss, (altLoop lines f (i + 1) ss).isSome :=
      fun ss => ih (i + 1) ss (fun j hj1 hj2 => hb j (by omega) (by omega))
    simp only [altLoop, e0, e1]
    cases altPairSample (pyStrip (lines.getD i [])) (pyStrip (lines.getD (i + 1) [])) with
    | none => exact hrec samples
    | some p =>
      simp only
      by_cases h5 : 5 ≤ (samples ++ [p]).length
      · rw [if_pos h5]; rfl
      · rw [if_neg h5]; exact hrec (samples ++ [p])

theorem pairLoop_isSome (lines : List PyStr) (lang : Lang) (pat : AltPattern) :
    ∀ fuel i, (∀ j, i ≤ j → j < i + fuel → j + 1 < lines.length) →
    (pairLoop lines lang pat fuel i).isSome := by
  intro fuel
  induction fuel with
  | zero => intro i _; simp [pairLoop]
  | succ f ih =>
    intro i hb
    have h1 : i + 1 < lines.length := hb i (Nat.le_refl i) (by omega)
    have e0 := get?_eq_some_getD lines i (by omega)
    have e1 := get?_eq_some_getD lines (i + 1) h1
    have hrec : (pairLoop lines lang pat f (i + 1)).isSome :=
      ih (i + 1) (fun j hj1 hj2 => hb j (by omega) (by omega))
    simp only [pairLoop, e0, e1]
    cases hx : pairLoop lines lang pat f (i + 1) with
    | none => rw [hx] at hrec; simp at hrec
    | some rest => rfl

theorem multilineWordsLoop_isSome (lines : List PyStr) (lang : Lang) :
    ∀ fuel i, lines.length - 2 ≤ i + fuel →
    (multilineWordsLoop lines lang fuel i).isSome := by
  intro fuel
  induction fuel with
  | zero =>
    intro i hb
    simp only [multilineWordsLoop]
    rw [if_neg (by omega)]
    rfl
  | succ f ih =>
    intro i hb
    simp only [multilineWordsLoop]
    by_cases hcond : i < lines.length - 2
    · rw [if_pos hcond]
      have e0 := get?_eq_some_getD lines i (by omega)
      have e1 := get?_eq_some_getD lines (i + 1) (by omega)
      have e2 := get?_eq_some_getD lines (i + 2) (by omega)
      simp only [e0, e1, e2]
      by_cases hq : (!(pyStrip (lines.getD i [])).isEmpty &&
          !(pyStrip (lines.getD (i + 1) [])).isEmpty &&
          (pyStrip (lines.getD i [])).contains '/' &&
          (pyStrip (lines.getD i [])).contains '<' &&
          !(pyStrip (lines.getD (i + 1) [])).contains '/' &&
          !(pyStrip (lines.getD (i + 1) [])).contains '<') = true
      · rw [if_pos hq]
        by_cases hp : (!should_include_word_by_pos (pyStrip (lines.getD i []))
            POS_FILTERS) = true
        · rw [if_pos hp]
          exact ih (i + 1) (by omega)
        · rw [if_neg hp]
          have hrec := ih (i + 3) (by omega)
          cases hx : multilineWordsLoop lines lang f (i + 3) with
          | none => rw [hx] at hrec; simp at hrec
          | some rest => rfl
      · rw [if_neg hq]
        exact ih (i + 1) (by omega)
    · rw [if_neg hcond]
      rfl

theorem headerSkipStart_isSome (lines : List PyStr) :
    ∀ fuel i, i + fuel ≤ lines.length →
    (headerSkipStart lines fuel i).isSome := by
  intro fuel
  induction fuel with
  | zero => intro i _; simp [headerSkipStart]
  | succ f ih =>
    intro i hb
    have e0 := get?_eq_some_getD lines i (by omega)
    have hrec : (headerSkipStart lines f (i + 1)).isSome := ih (i + 1) (by omega)
    simp only [headerSkipStart, e0]
    by_cases h1 : ((pyStrip (lines.getD i [])).isEmpty ||
        is_header_line (pyStrip (lines.getD i [])) ||
        contains_year (pyStrip (lines.getD i [])) ||
        decide (50 < (pyStrip (lines.getD i [])).length) ||
        (pyStrip (lines.getD i [])).contains ':') = true
    · rw [if_pos h1]; exact hrec
    · rw [if_neg h1]
      by_cases h2 : (headerSkipCandidate (pyStrip (lines.getD i [])) &&
          decide (i + 1 < lines.length)) = true
      · rw [if_pos h2]
        have hlt : i + 1 < lines.length := by
          have := h2
          simp only [Bool.and_eq_true, decide_eq_true_eq] at this
          exact this.2
        simp only [get?_eq_some_getD lines (i + 1) hlt]
        by_cases h3 : (!(pyStrip (lines.getD (i + 1) [])).isEmpty &&
            decide ((pyStrip (lines.getD i [])).length <
              (pyStrip (lines.getD (i + 1) [])).length)) = true
        · rw [if_pos h3]; rfl
        · rw [if_neg h3]; exact hrec
      · rw [if_neg h2]; exact hrec

theorem headerSkipPairsLoop_isSome (lines : List PyStr) (lang : Lang) :
    ∀ fuel i, lines.length - 1 ≤ i + fuel →
    (headerSkipPairsLoop lines lang fuel i).isSome := by
  intro fuel
  induction fuel with
  | zero =>
    intro i hb
    simp only [headerSkipPairsLoop]
    rw [if_neg (by omega)]
    rfl
  | succ f ih =>
    intro i hb
    simp only [headerSkipPairsLoop]
    by_cases hcond : i + 1 < lines.length
    · rw [if_pos hcond]
      have e0 := get?_eq_some_getD lines i (by omega)
      have e1 := get?_eq_some_getD lines (i + 1) (by omega)
      simp only [e0, e1]
      by_cases hq : ((pyStrip (lines.getD i [])).isEmpty ||
          (pyStrip (lines.getD (i + 1) [])).isEmpty) = true
      · rw [if_pos hq]
        exact ih (i + 1) (by omega)
      · rw [if_neg hq]
        have hrec := ih (i + 2) (by omega)
        cases hx : headerSkipPairsLoop lines lang f (i + 2) with
        | none => rw [hx] at hrec; simp at hrec
        | some rest => rfl
    · rw [if_neg hcond]
      rfl

theorem detect_alternating_pattern_isSome (lines : List PyStr) :
    (detect_alternating_pattern lines).isSome := by
  have h := altLoop_isSome lines (min 200 (lines.length - 1) - 50) 50 []
    (fun j hj1 hj2 => by omega)
  cases hx : altLoop lines (min 200 (lines.length - 1) - 50) 50 [] with
  | none => rw [hx] at h; simp at h
  | some samples =>
    unfold detect_alternating_pattern
    rw [hx]
    dsimp only
    split
    · rfl
    · split
      · rfl
      · split
        · rfl
        · rfl

theorem detect_simple_format_isSome (lines : List PyStr) :
    (detect_simple_format lines).isSome := by
  unfold detect_simple_format
  by_cases hp : simplePronPosPreCheck lines = true
  · rw [if_pos hp]; rfl
  · rw [if_neg hp]
    rw [simpleLoop_eq_count lines (min 400 (lines.length - 1) - 50) 50 0
      (fun j hj1 hj2 => by omega) (by omega)]
    rfl

theorem detect_multiline_format_isSome (lines : List PyStr) :
    (detect_multiline_format lines).isSome := by
  unfold detect_multiline_format
  rw [multilineLoop_eq_count lines (min 150 (lines.length - 2) - 50) 50 0
    (fun j hj1 hj2 => by omega) (by omega)]
  rfl

theorem extract_words_with_pattern_detection_isSome (lines : List PyStr)
    (lang : Lang) (pat : AltPattern) :
    (extract_words_with_pattern_detection lines lang pat).isSome := by
  have hml := detect_multiline_format_isSome lines
  cases hx : detect_multiline_format lines with
  | none => rw [hx] at hml; simp at hml
  | some b =>
    cases b with
    | true =>
      unfold extract_words_with_pattern_detection
      rw [hx]
      exact multilineWordsLoop_isSome lines lang lines.length 0 (by omega)
    | false =>
      unfold extract_words_with_pattern_detection
      rw [hx]
      exact pairLoop_isSome lines lang pat (lines.length - 1) 0
        (fun j hj1 hj2 => by omega)

theorem _extract_with_header_skip_isSome (lines : List PyStr) (lang : Lang) :
    (_extract_with_header_skip lines lang).isSome := by
  have hs := headerSkipStart_isSome lines lines.length 0 (by omega)
  cases hx : headerSkipStart lines lines.length 0 with
  | none => rw [hx] at hs; simp at hs
  | some s =>
    unfold _extract_with_header_skip
    rw [hx]
    exact headerSkipPairsLoop_isSome lines lang lines.length s (by omega)

/-- C9: for every list of lines (including the empty list and lists
shorter than every detection window) and every role, the whole
layout-detection-and-extraction pipeline terminates and produces a word
list: every list access of every detection loop is in bounds, so the
`Option`-valued embedding of `extract_words_from_gzip_content` is always
`some`. -/
theorem c9_pipeline_total (lines : List PyStr) (lang : Lang) (isDzFile : Bool) :
    (extract_words_from_gzip_content lines lang isDzFile).isSome := by
  unfold extract_words_from_gzip_content
  set L := lines.map rstripNewline with hL
  by_cases hscript : (detect_target_language_script L 500 = Script.arabic ||
      detect_target_language_script L 500 = Script.cyrillic ||
      detect_target_language_script L 500 = Script.cjk ||
      detect_target_language_script L 500 = Script.devanagari) = true
  · rw [if_pos hscript]; rfl
  · rw [if_neg hscript]
    have halt := detect_alternating_pattern_isSome L
    cases hx : detect_alternating_pattern L with
    | none => rw [hx] at halt; simp at halt
    | some pat =>
      simp only
      by_cases hpat : (pat = AltPattern.sourceTarget ||
          pat = AltPattern.targetSource) = true
      · rw [if_pos hpat]
        by_cases hdz : (isDzFile && pat = AltPattern.targetSource) = true
        · rw [if_pos hdz]
          exact extract_words_with_pattern_detection_isSome L (oppLang lang) pat
        · rw [if_neg hdz]
          exact extract_words_with_pattern_detection_isSome L lang pat
      · rw [if_neg hpat]
        have hsimple := detect_simple_format_isSome L
        cases hy : detect_simple_format L with
        | none => rw [hy] at hsimple; simp at hsimple
        | some simpleFormat =>
          simp only
          cases simpleFormat with
          | true => rfl
          | false =>
            simp only [Bool.false_eq_true, if_false]
            have hmulti := detect_multiline_format_isSome L
            cases hz : detect_multiline_format L with
            | none => rw [hz] at hmulti; simp at hmulti
            | some multilineFormat =>
              simp only
              cases multilineFormat with
              | true =>
                simp only [if_true]
                exact multilineWordsLoop_isSome L lang L.length 0 (by omega)
              | false =>
                simp only [Bool.false_eq_true, if_false]
                exact _extract_with_header_skip_isSome L lang

/-- C5 (counterexample): a corpus of five multiline entries whose middle
lines carry an angle-bracket POS tag (but no slash) is classified as
multiline by the code, yet no position satisfies the claim's stated
triple condition ("line 2 contains neither a slash nor an angle
bracket"). -/
theorem c5_counterexample :
    detect_multiline_format c5Corpus = some true ∧
    c5CountAsStated c5Corpus < 5 := by decide

/-- C5 (amended): `detect_multiline_format` returns `True` exactly when
at least five index positions of `[50, min(150, len-2))` yield a triple
of non-blank stripped lines where line `i` contains a slash and a `<`,
line `i+1` contains no slash (angle brackets are not checked on line
`i+1`), and line `i+2` contains a period or more than 8
whitespace-separated tokens. -/
theorem c5_multiline_amended (lines : List PyStr) :
    detect_multiline_format lines = some true ↔ 5 ≤ multilineQualCount lines := by
  unfold detect_multiline_format
  rw [multilineLoop_eq_count lines (min 150 (lines.length - 2) - 50) 50 0
    (fun j hj1 hj2 => by omega) (by omega)]
  unfold multilineQualCount
  simp only [Option.some.injEq, decide_eq_true_eq, Nat.zero_add]

/-- C6 (counterexample): a corpus whose line 0 carries `/`, `<` and `>`
trips the pronunciation pre-check of `detect_simple_format`, which then
returns `False` even though three positions of `[50,400)` satisfy the
claim's stated qualifying condition. -/
theorem c6_counterexample :
    detect_simple_format c6Corpus = some false ∧
    3 ≤ c6CountAsStated c6Corpus := by decide

/-- C6 (amended): `detect_simple_format` returns `True` exactly when no
line among the first 200 raw lines contains `/`, `<` and `>` together
(the pre-check) and at least three index positions of
`[50, min(400, len-1))` qualify under the code's conditions (which
additionally exclude lines ending with a colon and read the year test
as the specific patterns 2005/2010/2018–2024). -/
theorem c6_simple_amended (lines : List PyStr) :
    detect_simple_format lines = some true ↔
      (simplePronPosPreCheck lines = false ∧ 3 ≤ simpleQualCount lines) := by
  unfold detect_simple_format
  by_cases hp : simplePronPosPreCheck lines = true
  · rw [if_pos hp]
    simp [hp]
  · have hp' : simplePronPosPreCheck lines = false := by
      cases h : simplePronPosPreCheck lines
      · rfl
      · exact absurd h hp
    rw [if_neg hp]
    rw [simpleLoop_eq_count lines (min 400 (lines.length - 1) - 50) 50 0
      (fun j hj1 hj2 => by omega) (by omega)]
    unfold simpleQualCount
    simp only [Option.some.injEq, decide_eq_true_eq, Nat.zero_add, hp', true_and]

theorem short_corpus_detectors (lines : List PyStr) (h : lines.length < 52) :
    detect_alternating_pattern lines = some AltPattern.unknown ∧
    detect_simple_format lines = some false ∧
    detect_multiline_format lines = some false := by
  refine ⟨?_, ?_, ?_⟩
  · unfold detect_alternating_pattern
    have hf : min 200 (lines.length - 1) - 50 = 0 := by omega
    rw [hf]
    rfl
  · unfold detect_simple_format
    by_cases hp : simplePronPosPreCheck lines = true
    · rw [if_pos hp]
    · rw [if_neg hp]
      have hf : min 400 (lines.length - 1) - 50 = 0 := by omega
      rw [hf]
      rfl
  · unfold detect_multiline_format
    have hf : min 150 (lines.length - 2) - 50 = 0 := by omega
    rw [hf]
    rfl

/-- C10: for every corpus with fewer than 52 lines,
`detect_alternating_pattern` returns `unknown`, `detect_simple_format`
and `detect_multiline_format` return `False` (their scan windows
starting at index 50 are empty), so every such corpus whose document
script is Latin is extracted exclusively by the header-skip fallback
strategy. -/
theorem c10_short_corpus_fallback (lines : List PyStr) (h : lines.length < 52) :
    detect_alternating_pattern lines = some AltPattern.unknown ∧
    detect_simple_format lines = some false ∧
    detect_multiline_format lines = some false ∧
    (detect_target_language_script (lines.map rstripNewline) 500 = Script.latin →
      ∀ lang isDzFile, extract_words_from_gzip_content lines lang isDzFile =
        _extract_with_header_skip (lines.map rstripNewline) lang) := by
  obtain ⟨h1, h2, h3⟩ := short_corpus_detectors lines h
  refine ⟨h1, h2, h3, ?_⟩
  intro hlat lang isDzFile
  have hlen : (lines.map rstripNewline).length < 52 := by
    rw [List.length_map]; exact h
  obtain ⟨g1, g2, g3⟩ := short_corpus_detectors (lines.map rstripNewline) hlen
  unfold extract_words_from_gzip_content
  dsimp only
  rw [hlat, g1, g2, g3]
  rfl

/-- A closed instance of the C10 fallback behaviour on a two-line Latin
corpus. -/
theorem c10_short_corpus_fallback_witness :
    detect_alternating_pattern c10Corpus = some AltPattern.unknown ∧
    extract_words_from_gzip_content c10Corpus Lang.source false =
      _extract_with_header_skip (c10Corpus.map rstripNewline) Lang.source := by
  have h := c10_short_corpus_fallback c10Corpus (by decide)
  exact ⟨h.1, h.2.2.2 (by decide) Lang.source false⟩

/-- C2: on a corpus whose document script is Latin, when the detected
alternating pattern is target-source, the `.dz` pipeline swaps the
requested role before delegating to
`extract_words_with_pattern_detection`; with `is_dz_file = False`, or
with a source-target pattern, the role is passed through unchanged. -/
theorem c2_dz_role_swap (lines : List PyStr) (lang : Lang)
    (hscript : detect_target_language_script (lines.map rstripNewline) 500 =
      Script.latin) :
    (detect_alternating_pattern (lines.map rstripNewline) =
        some AltPattern.targetSource →
      extract_words_from_gzip_content lines lang true =
        extract_words_with_pattern_detection (lines.map rstripNewline)
          (oppLang lang) AltPattern.targetSource ∧
      extract_words_from_gzip_content lines lang false =
        extract_words_with_pattern_detection (lines.map rstripNewline) lang
          AltPattern.targetSource) ∧
    (detect_alternating_pattern (lines.map rstripNewline) =
        some AltPattern.sourceTarget →
      ∀ isDzFile, extract_words_from_gzip_content lines lang isDzFile =
        extract_words_with_pattern_detection (lines.map rstripNewline) lang
          AltPattern.sourceTarget) := by
  constructor
  · intro hts
    constructor
    · unfold extract_words_from_gzip_content
      dsimp only
      rw [hscript, hts]
      rfl
    · unfold extract_words_from_gzip_content
      dsimp only
      rw [hscript, hts]
      rfl
  · intro hst isDzFile
    unfold extract_words_from_gzip_content
    dsimp only
    rw [hscript, hst]
    cases isDzFile
    · rfl
    · rfl

/-- A closed instance of the C2 role swap on a concrete target-source
corpus. -/
theorem c2_dz_role_swap_witness :
    extract_words_from_gzip_content c2Corpus Lang.source true =
      extract_words_with_pattern_detection (c2Corpus.map rstripNewline)
        Lang.target AltPattern.targetSource := by
  have h := c2_dz_role_swap c2Corpus Lang.source (by decide)
  exact (h.1 (by decide)).1

/-- C1: on the 60-line corpus whose lines 50, 52 and 54 are
`casa /ˈkasa/ <n>` and lines 51, 53 and 55 are `house` (all other lines
blank), the pipeline with `is_dz_file = False` and the default POS
filters classifies the layout as source-target via
`detect_alternating_pattern`, the source-role output contains `casa`,
and the target-role output contains `house`. -/
theorem c1_round_trip_source_target :
    detect_alternating_pattern c1Corpus = some AltPattern.sourceTarget ∧
    "casa".data ∈ (extract_words_from_gzip_content c1Corpus Lang.source false).getD [] ∧
    "house".data ∈ (extract_words_from_gzip_content c1Corpus Lang.target false).getD [] := by
  decide

/-! Counter lemmas: the `Counter`-style association list built by
`detect_target_language_script` has per-key values equal to the
per-script character counts of the sampled lines, and Python's
`max(counts, key=counts.get)` returns an entry of maximal count. -/

theorem bumpCount_lookup_self (m : List (Script × Nat)) (k : Script) :
    countLookup (bumpCount m k) k = countLookup m k + 1 := by
  induction m with
  | nil => simp [bumpCount, countLookup]
  | cons p rest ih =>
    obtain ⟨k', v⟩ := p
    by_cases hk : k' = k
    · simp [bumpCount, countLookup, hk]
    · simp [bumpCount, countLookup, hk, ih]

theorem bumpCount_lookup_other (m : List (Script × Nat)) (k k' : Script)
    (h : k' ≠ k) : countLookup (bumpCount m k) k' = countLookup m k' := by
  induction m with
  | nil =>
    simp only [bumpCount, countLookup]
    rw [if_neg (fun he => h he.symm)]
  | cons p rest ih =>
    obtain ⟨k0, v⟩ := p
    by_cases hk : k0 = k
    · subst hk
      simp only [bumpCount, if_pos rfl, countLookup]
      rw [if_neg (fun he => h he.symm), if_neg (fun he => h he.symm)]
    · simp only [bumpCount, if_neg hk, countLookup]
      by_cases hk2 : k0 = k'
      · rw [if_pos hk2, if_pos hk2]
      · rw [if_neg hk2, if_neg hk2, ih]

theorem bumpCount_keys (m : List (Script × Nat)) (k k' : Script) :
    k' ∈ (bumpCount m k).map Prod.fst ↔ (k' = k ∨ k' ∈ m.map Prod.fst) := by
  induction m with
  | nil => simp [bumpCount]
  | cons p rest ih =>
    obtain ⟨k0, v⟩ := p
    by_cases hk : k0 = k
    · subst hk
      simp only [bumpCount, eq_self_iff_true, if_true, List.map_cons, List.mem_cons]
      tauto
    · simp only [bumpCount, if_neg hk, List.map_cons, List.mem_cons, ih]
      tauto

theorem bumpCount_nodup (m : List (Script × Nat)) (k : Script)
    (h : (m.map Prod.fst).Nodup) : ((bumpCount m k).map Prod.fst).Nodup := by
  induction m with
  | nil => simp [bumpCount]
  | cons p rest ih =>
    obtain ⟨k0, v⟩ := p
    simp only [List.map_cons, List.nodup_cons] at h
    by_cases hk : k0 = k
    · simp only [bumpCount, if_pos hk, List.map_cons, List.nodup_cons]
      exact h
    · simp only [bumpCount, if_neg hk, List.map_cons, List.nodup_cons]
      refine ⟨?_, ih h.2⟩
      intro hmem
      rcases (bumpCount_keys rest k k0).mp hmem with he | he
      · exact hk he
      · exact h.1 he

theorem countLookup_pos_mem (m : List (Script × Nat)) (k : Script)
    (h : 0 < countLookup m k) : (k, countLookup m k) ∈ m := by
  induction m with
  | nil => simp [countLookup] at h
  | cons p rest ih =>
    obtain ⟨k0, v⟩ := p
    by_cases hk : k0 = k
    · subst hk
      simp only [countLookup, eq_self_iff_true, if_true] at h ⊢
      exact List.mem_cons_self _ _
    · simp only [countLookup, if_neg hk] at h ⊢
      right
      exact ih h

theorem countLookup_of_mem_nodup (m : List (Script × Nat)) (k : Script) (v : Nat)
    (hmem : (k, v) ∈ m) (hnd : (m.map Prod.fst).Nodup) : countLookup m k = v := by
  induction m with
  | nil => simp at hmem
  | cons p rest ih =>
    obtain ⟨k0, v0⟩ := p
    simp only [List.map_cons, List.nodup_cons] at hnd
    simp only [List.mem_cons] at hmem
    cases hmem with
    | inl he =>
      have he1 : k = k0 := congrArg Prod.fst he
      have he2 : v = v0 := congrArg Prod.snd he
      subst he1
      subst he2
      simp [countLookup]
    | inr hmem =>
      by_cases hk : k0 = k
      · exfalso
        apply hnd.1
        subst hk
        exact List.mem_map_of_mem Prod.fst hmem
      · simp only [countLookup, if_neg hk]
        exact ih hmem hnd.2

theorem countLookup_pos_of_mem (m : List (Script × Nat)) (k : Script) (v : Nat)
    (hmem : (k, v) ∈ m) (hpos : ∀ p ∈ m, 1 ≤ p.2)
    (hnd : (m.map Prod.fst).Nodup) : 0 < countLookup m k := by
  rw [countLookup_of_mem_nodup m k v hmem hnd]
  exact hpos (k, v) hmem

theorem bumpCount_pos (m : List (Script × Nat)) (k : Script)
    (h : ∀ p ∈ m, 1 ≤ p.2) : ∀ p ∈ bumpCount m k, 1 ≤ p.2 := by
  induction m with
  | nil =>
    intro p hp
    simp only [bumpCount, List.mem_singleton] at hp
    subst hp
    exact Nat.le_refl 1
  | cons q rest ih =>
    obtain ⟨k0, v⟩ := q
    intro p hp
    by_cases hk : k0 = k
    · simp only [bumpCount, if_pos hk, List.mem_cons] at hp
      cases hp with
      | inl he => subst he; simp
      | inr he => exact h p (by simp [he])
    · simp only [bumpCount, if_neg hk, List.mem_cons] at hp
      cases hp with
      | inl he => exact h p (by simp [he])
      | inr he => exact ih (fun q hq => h q (by simp [hq])) p he

theorem tallyLine_lookup (k : Script) :
    ∀ (line : PyStr) (m : List (Script × Nat)),
    countLookup (tallyLine m line) k =
      countLookup m k + line.countP (fun c => charScriptClass c = some k) := by
  intro line
  induction line with
  | nil => intro m; simp [tallyLine]
  | cons c cs ih =>
    intro m
    have hstep : tallyLine m (c :: cs) =
        tallyLine (match charScriptClass c with
          | some kk => bumpCount m kk
          | none => m) cs := by
      simp [tallyLine]
    rw [hstep, ih]
    rw [List.countP_cons]
    cases hc : charScriptClass c with
    | none => simp [hc]
    | some kk =>
      by_cases hkk : kk = k
      · subst hkk
        simp only [hc, bumpCount_lookup_self]
        simp only [hc, decide_eq_true_eq, eq_self_iff_true, if_true]
        omega
      · simp only [hc, bumpCount_lookup_other m kk k (fun he => hkk he.symm)]
        simp [hc, hkk]

theorem tallyLine_nodup (line : PyStr) :
    ∀ m, (m.map Prod.fst).Nodup → ((tallyLine m line).map Prod.fst).Nodup := by
  induction line with
  | nil => intro m h; simpa [tallyLine] using h
  | cons c cs ih =>
    intro m h
    have hstep : tallyLine m (c :: cs) =
        tallyLine (match charScriptClass c with
          | some kk => bumpCount m kk
          | none => m) cs := by
      simp [tallyLine]
    rw [hstep]
    apply ih
    cases hc : charScriptClass c with
    | none => simpa [hc] using h
    | some kk => simpa [hc] using bumpCount_nodup m kk h

theorem tallyLine_pos (line : PyStr) :
    ∀ m, (∀ p ∈ m, 1 ≤ p.2) → ∀ p ∈ tallyLine m line, 1 ≤ p.2 := by
  induction line with
  | nil => intro m h; simpa [tallyLine] using h
  | cons c cs ih =>
    intro m h
    have hstep : tallyLine m (c :: cs) =
        tallyLine (match charScriptClass c with
          | some kk => bumpCount m kk
          | none => m) cs := by
      simp [tallyLine]
    rw [hstep]
    apply ih
    cases hc : charScriptClass c with
    | none => simpa [hc] using h
    | some kk => simpa [hc] using bumpCount_pos m kk h

theorem scriptTally_lookup (k : Script) :
    ∀ (lines : List PyStr) (fuel : Nat) (m : List (Script × Nat)),
    countLookup (scriptTally lines fuel m) k =
      countLookup m k + scriptCharCount k (lines.take fuel) := by
  intro lines
  induction lines with
  | nil => intro fuel m; simp [scriptTally, scriptCharCount]
  | cons l rest ih =>
    intro fuel m
    cases fuel with
    | zero => simp [scriptTally, scriptCharCount]
    | succ f =>
      have hstep : scriptTally (l :: rest) (f + 1) m =
          scriptTally rest f (tallyLine m l) := by
        simp [scriptTally]
      rw [hstep, ih, tallyLine_lookup]
      simp only [List.take, scriptCharCount, List.map_cons, List.sum_cons]
      omega

theorem scriptTally_nodup :
    ∀ (lines : List PyStr) (fuel : Nat) (m : List (Script × Nat)),
    (m.map Prod.fst).Nodup → ((scriptTally lines fuel m).map Prod.fst).Nodup := by
  intro lines
  induction lines with
  | nil => intro fuel m h; simpa [scriptTally] using h
  | cons l rest ih =>
    intro fuel m h
    cases fuel with
    | zero => simpa [scriptTally] using h
    | succ f =>
      have hstep : scriptTally (l :: rest) (f + 1) m =
          scriptTally rest f (tallyLine m l) := by
        simp [scriptTally]
      rw [hstep]
      exact ih f (tallyLine m l) (tallyLine_nodup l m h)

theorem scriptTally_pos :
    ∀ (lines : List PyStr) (fuel : Nat) (m : List (Script × Nat)),
    (∀ p ∈ m, 1 ≤ p.2) → ∀ p ∈ scriptTally lines fuel m, 1 ≤ p.2 := by
  intro lines
  induction lines with
  | nil => intro fuel m h; simpa [scriptTally] using h
  | cons l rest ih =>
    intro fuel m h
    cases fuel with
    | zero => simpa [scriptTally] using h
    | succ f =>
      have hstep : scriptTally (l :: rest) (f + 1) m =
          scriptTally rest f (tallyLine m l) := by
        simp [scriptTally]
      rw [hstep]
      exact ih f (tallyLine m l) (tallyLine_pos l m h)

theorem scriptTally_take :
    ∀ (lines : List PyStr) (fuel : Nat) (m : List (Script × Nat)),
    scriptTally (lines.take fuel) fuel m = scriptTally lines fuel m := by
  intro lines
  induction lines with
  | nil => intro fuel m; simp
  | cons l rest ih =>
    intro fuel m
    cases fuel with
    | zero => simp [scriptTally]
    | succ f =>
      simp only [List.take]
      have h1 : scriptTally (l :: rest.take f) (f + 1) m =
          scriptTally (rest.take f) f (tallyLine m l) := by
        simp [scriptTally]
      have h2 : scriptTally (l :: rest) (f + 1) m =
          scriptTally rest f (tallyLine m l) := by
        simp [scriptTally]
      rw [h1, h2, ih]

theorem foldlMax_mem :
    ∀ (l : List (Script × Nat)) (init : Script × Nat),
    (l.foldl (fun best q => if best.2 < q.2 then q else best) init) = init ∨
      (l.foldl (fun best q => if best.2 < q.2 then q else best) init) ∈ l := by
  intro l
  induction l with
  | nil => intro init; left; rfl
  | cons q qs ih =>
    intro init
    simp only [List.foldl_cons]
    rcases ih (if init.2 < q.2 then q else init) with he | he
    · rw [he]
      by_cases hlt : init.2 < q.2
      · right
        rw [if_pos hlt]
        exact List.mem_cons_self q qs
      · left
        rw [if_neg hlt]
    · right
      exact List.mem_cons_of_mem q he

theorem foldlMax_ge_init :
    ∀ (l : List (Script × Nat)) (init : Script × Nat),
    init.2 ≤ (l.foldl (fun best q => if best.2 < q.2 then q else best) init).2 := by
  intro l
  induction l with
  | nil => intro init; exact Nat.le_refl _
  | cons q qs ih =>
    intro init
    simp only [List.foldl_cons]
    refine Nat.le_trans ?_ (ih (if init.2 < q.2 then q else init))
    by_cases hlt : init.2 < q.2
    · rw [if_pos hlt]
      exact Nat.le_of_lt hlt
    · rw [if_neg hlt]

theorem foldlMax_ge_mem :
    ∀ (l : List (Script × Nat)) (init : Script × Nat) (q : Script × Nat),
    q ∈ l → q.2 ≤ (l.foldl (fun best p => if best.2 < p.2 then p else best) init).2 := by
  intro l
  induction l with
  | nil => intro init q hq; simp at hq
  | cons a qs ih =>
    intro init q hq
    simp only [List.foldl_cons]
    rcases List.mem_cons.mp hq with he | he
    · subst he
      refine Nat.le_trans ?_ (foldlMax_ge_init qs (if init.2 < q.2 then q else init))
      by_cases hlt : init.2 < q.2
      · rw [if_pos hlt]
      · rw [if_neg hlt]
        omega
    · exact ih (if init.2 < a.2 then a else init) q he

theorem argmaxFirst_spec (p : Script × Nat) (rest : List (Script × Nat)) :
    ∃ r, r ∈ p :: rest ∧ (∀ q ∈ p :: rest, q.2 ≤ r.2) ∧
      argmaxFirst (p :: rest) = r.1 := by
  refine ⟨rest.foldl (fun best q => if best.2 < q.2 then q else best) p, ?_, ?_, by rfl⟩
  · rcases foldlMax_mem rest p with he | he
    · rw [he]
      exact List.mem_cons_self p rest
    · exact List.mem_cons_of_mem p he
  · intro q hq
    rcases List.mem_cons.mp hq with he | he
    · subst he
      exact foldlMax_ge_init rest q
    · exact foldlMax_ge_mem rest p q he

theorem detect_script_take (lines : List PyStr) (s : Nat) :
    detect_target_language_script lines s =
      detect_target_language_script (lines.take s) s := by
  unfold detect_target_language_script
  rw [scriptTally_take]

theorem tally_lookup_count (lines : List PyStr) (s : Nat) (k : Script) :
    countLookup (scriptTally lines s []) k = scriptCharCount k (lines.take s) := by
  rw [scriptTally_lookup]
  simp [countLookup]

theorem detect_script_latin_of_no_nonlatin (lines : List PyStr) (s : Nat)
    (h : ∀ k, k ≠ Script.latin → scriptCharCount k (lines.take s) = 0) :
    detect_target_language_script lines s = Script.latin := by
  unfold detect_target_language_script
  have hnodup : ((scriptTally lines s []).map Prod.fst).Nodup :=
    scriptTally_nodup lines s [] (by simp)
  have hpos : ∀ p ∈ scriptTally lines s [], 1 ≤ p.2 :=
    scriptTally_pos lines s [] (by simp)
  have hfilter : (scriptTally lines s []).filter (fun p => p.1 ≠ Script.latin) = [] := by
    rw [List.filter_eq_nil_iff]
    intro p hp
    simp only [decide_not, Bool.not_eq_true', decide_eq_false_iff_not, not_not]
    by_contra hne
    have h1 : countLookup (scriptTally lines s []) p.1 = p.2 :=
      countLookup_of_mem_nodup _ p.1 p.2 (by simpa using hp) hnodup
    have h2 := tally_lookup_count lines s p.1
    have h3 := h p.1 hne
    have h4 := hpos p hp
    omega
  dsimp only
  rw [hfilter]
  by_cases hT : (scriptTally lines s []).isEmpty
  · rw [if_pos hT]
  · rw [if_neg hT]
    rfl

theorem detect_script_dominant (lines : List PyStr) (s : Nat) (k0 : Script)
    (hk0 : k0 ≠ Script.latin) (hpos0 : 0 < scriptCharCount k0 (lines.take s)) :
    detect_target_language_script lines s ≠ Script.latin ∧
    ∀ k', k' ≠ Script.latin →
      scriptCharCount k' (lines.take s) ≤
        scriptCharCount (detect_target_language_script lines s) (lines.take s) := by
  have hnodup : ((scriptTally lines s []).map Prod.fst).Nodup :=
    scriptTally_nodup lines s [] (by simp)
  have hposall : ∀ p ∈ scriptTally lines s [], 1 ≤ p.2 :=
    scriptTally_pos lines s [] (by simp)
  have hlook : ∀ k, countLookup (scriptTally lines s []) k =
      scriptCharCount k (lines.take s) := tally_lookup_count lines s
  have hmem0 : (k0, scriptCharCount k0 (lines.take s)) ∈ scriptTally lines s [] := by
    have := countLookup_pos_mem (scriptTally lines s []) k0 (by rw [hlook]; exact hpos0)
    rwa [hlook] at this
  have hmemF : (k0, scriptCharCount k0 (lines.take s)) ∈
      (scriptTally lines s []).filter (fun p => p.1 ≠ Script.latin) := by
    rw [List.mem_filter]
    exact ⟨hmem0, by simpa using hk0⟩
  have hTne : (scriptTally lines s []).isEmpty = false := by
    cases hT : scriptTally lines s [] with
    | nil => rw [hT] at hmem0; simp at hmem0
    | cons a l => rfl
  have hdetect : detect_target_language_script lines s =
      argmaxFirst ((scriptTally lines s []).filter (fun p => p.1 ≠ Script.latin)) := by
    unfold detect_target_language_script
    dsimp only
    rw [if_neg (by rw [hTne]; exact Bool.false_ne_true)]
    cases hF : (scriptTally lines s []).filter (fun p => p.1 ≠ Script.latin) with
    | nil => rw [hF] at hmemF; simp at hmemF
    | cons a l => rw [if_neg (by simp)]
  cases hF : (scriptTally lines s []).filter (fun p => p.1 ≠ Script.latin) with
  | nil => rw [hF] at hmemF; simp at hmemF
  | cons a l =>
    obtain ⟨r, hrmem, hrmax, hrval⟩ := argmaxFirst_spec a l
    rw [← hF] at hrmem hrmax
    have hrT : r ∈ scriptTally lines s [] ∧ r.1 ≠ Script.latin := by
      have := (List.mem_filter).mp hrmem
      exact ⟨this.1, by simpa using this.2⟩
    have hrv : r.2 = scriptCharCount r.1 (lines.take s) := by
      have := countLookup_of_mem_nodup _ r.1 r.2 hrT.1 hnodup
      rw [hlook] at this
      omega
    have hres : detect_target_language_script lines s = r.1 := by
      rw [hdetect, hF, hrval]
    constructor
    · rw [hres]
      exact hrT.2
    · intro k' hk'
      rw [hres, ← hrv]
      by_cases hz : scriptCharCount k' (lines.take s) = 0
      · omega
      · have hmem' : (k', scriptCharCount k' (lines.take s)) ∈ scriptTally lines s [] := by
          have := countLookup_pos_mem (scriptTally lines s []) k'
            (by rw [hlook]; omega)
          rwa [hlook] at this
        have hmemF' : (k', scriptCharCount k' (lines.take s)) ∈
            (scriptTally lines s []).filter (fun p => p.1 ≠ Script.latin) := by
          rw [List.mem_filter]
          exact ⟨hmem', by simpa using hk'⟩
        exact hrmax _ hmemF'

theorem scriptCharCount_take_le (k : Script) (l : List PyStr) (n : Nat) :
    scriptCharCount k (l.take n) ≤ scriptCharCount k l := by
  conv_rhs => rw [← List.take_append_drop n l]
  unfold scriptCharCount
  rw [List.map_append, List.sum_append]
  omega

/-- C4: `detect_target_language_script` inspects at most the first
`sample_size` lines (its result is unchanged when the corpus is
truncated there), tallies per-script character counts along the
per-character chain of `charScriptClass` (Latin counted as code points
0x20–0x7F), returns `latin` when every non-Latin count of the sample is
zero (in particular when no character falls in any tracked range), and
otherwise discards the Latin tally and returns a script with the
highest remaining count. -/
theorem c4_script_detection_spec (lines : List PyStr) (sampleSize : Nat) :
    detect_target_language_script lines sampleSize =
      detect_target_language_script (lines.take sampleSize) sampleSize ∧
    ((∀ k, k ≠ Script.latin → scriptCharCount k (lines.take sampleSize) = 0) →
      detect_target_language_script lines sampleSize = Script.latin) ∧
    (∀ k0, k0 ≠ Script.latin → 0 < scriptCharCount k0 (lines.take sampleSize) →
      detect_target_language_script lines sampleSize ≠ Script.latin ∧
      ∀ k', k' ≠ Script.latin →
        scriptCharCount k' (lines.take sampleSize) ≤
          scriptCharCount (detect_target_language_script lines sampleSize)
            (lines.take sampleSize)) :=
  ⟨detect_script_take lines sampleSize,
   detect_script_latin_of_no_nonlatin lines sampleSize,
   fun k0 h1 h2 => detect_script_dominant lines sampleSize k0 h1 h2⟩

/-- Closed instances of the C4 behaviour: an all-Latin (empty) sample
yields `latin`, and a sample holding a Cyrillic character does not. -/
theorem c4_script_detection_spec_witness :
    detect_target_language_script ([] : List PyStr) 500 = Script.latin ∧
    detect_target_language_script [['б']] 500 ≠ Script.latin :=
  ⟨(c4_script_detection_spec [] 500).2.1 (fun _ _ => rfl),
   ((c4_script_detection_spec [['б']] 500).2.2 Script.cyrillic (by decide)
     (by decide)).1⟩

/-- C3 (counterexample): a 500-line corpus whose first 100 lines contain
50 Cyrillic characters but also 60 Arabic characters is classified
arabic, not cyrillic: the claim's hypothesis does not force Cyrillic
dominance. -/
theorem c3_counterexample :
    c3CounterCorpus.length = 500 ∧
    50 ≤ scriptCharCount Script.cyrillic (c3CounterCorpus.take 100) ∧
    detect_target_language_script (c3CounterCorpus.map rstripNewline) 500 =
      Script.arabic := by
  decide

/-- C3 (amended): for every 500-line corpus whose first 100 lines contain
at least 50 Cyrillic-range characters and which contains strictly more
Cyrillic-range characters than characters of each other non-Latin
script among its first 500 lines, the classification is script-driven
with dominant script cyrillic and the pipeline takes the script-based
extraction branch with target script cyrillic, regardless of any
alternating-pattern evidence in the file. -/
theorem c3_cyrillic_dominant_amended (lines : List PyStr)
    (hlen : lines.length = 500)
    (hcyr : 50 ≤ scriptCharCount Script.cyrillic
      ((lines.map rstripNewline).take 100))
    (hdom : ∀ k, k ≠ Script.latin → k ≠ Script.cyrillic →
      scriptCharCount k ((lines.map rstripNewline).take 500) <
        scriptCharCount Script.cyrillic ((lines.map rstripNewline).take 500)) :
    detect_target_language_script (lines.map rstripNewline) 500 =
      Script.cyrillic ∧
    ∀ lang isDzFile, extract_words_from_gzip_content lines lang isDzFile =
      some (extract_words_by_script_detection (lines.map rstripNewline) lang
        Script.cyrillic) := by
  have hpos : 0 < scriptCharCount Script.cyrillic
      ((lines.map rstripNewline).take 500) := by
    have h1 : ((lines.map rstripNewline).take 500).take 100 =
        (lines.map rstripNewline).take 100 := by
      rw [List.take_take]
      norm_num
    have h2 := scriptCharCount_take_le Script.cyrillic
      ((lines.map rstripNewline).take 500) 100
    rw [h1] at h2
    omega
  obtain ⟨hne, hmax⟩ := detect_script_dominant (lines.map rstripNewline) 500
    Script.cyrillic (by decide) hpos
  have hdet : detect_target_language_script (lines.map rstripNewline) 500 =
      Script.cyrillic := by
    by_contra hne2
    have hlt := hdom (detect_target_language_script (lines.map rstripNewline) 500)
      hne hne2
    have hle := hmax Script.cyrillic (by decide)
    omega
  refine ⟨hdet, ?_⟩
  intro lang isDzFile
  unfold extract_words_from_gzip_content
  dsimp only
  rw [hdet]
  rfl

/-- A closed instance of the amended C3 on a 500-line corpus with 50
Cyrillic characters and nothing else non-Latin. -/
theorem c3_cyrillic_dominant_amended_witness :
    detect_target_language_script (c3WitnessCorpus.map rstripNewline) 500 =
      Script.cyrillic ∧
    extract_words_from_gzip_content c3WitnessCorpus Lang.target false =
      some (extract_words_by_script_detection (c3WitnessCorpus.map rstripNewline)
        Lang.target Script.cyrillic) := by
  have h := c3_cyrillic_dominant_amended c3WitnessCorpus (by decide) (by decide)
    (by intro k h1 h2
        cases k
        · decide
        · exact absurd rfl h2
        · decide
        · decide
        · exact absurd rfl h1)
  exact ⟨h.1, h.2 Lang.target false⟩

/-! StarDict lemmas: parsing a serialized record list recovers exactly
the in-bounds records with clamped definition slices, and the recovery
pass collects exactly the valid, not-yet-seen headwords. -/

theorem findNullIdx_append (l1 l2 : List Nat) (h : ∀ b ∈ l1, b ≠ 0) :
    findNullIdx (l1 ++ 0 :: l2) = some l1.length := by
  induction l1 with
  | nil => simp [findNullIdx]
  | cons b rest ih =>
    have hb : b ≠ 0 := h b (List.mem_cons_self b rest)
    simp only [List.cons_append, findNullIdx, if_neg hb, List.append_eq]
    rw [ih (fun x hx => h x (List.mem_cons_of_mem b hx))]
    rfl

theorem be32Bytes_length (n : Nat) : (be32Bytes n).length = 4 := rfl

theorem be32Of_be32Bytes (n : Nat) (h : n < 2 ^ 32) :
    be32Of (be32Bytes n) = n := by
  simp only [be32Of, be32Bytes, List.foldl_cons, List.foldl_nil]
  omega

theorem parseEntriesLoop_encode (dictData : List Nat) :
    ∀ (rs : List IdxRecord) (fuel : Nat), (encodeIndex rs).length ≤ fuel →
    (∀ r ∈ rs, WellFormedRecord r) →
    parseEntriesLoop dictData fuel (encodeIndex rs) =
      (rs.filterMap (primEntry dictData), (encodeIndex rs).length) := by
  intro rs
  induction rs with
  | nil =>
    intro fuel _ _
    cases fuel with
    | zero => rfl
    | succ f => rfl
  | cons r rest ih =>
    intro fuel hfuel hwf
    obtain ⟨hnz, hoff, hsz⟩ := hwf r (List.mem_cons_self r rest)
    have henc : encodeIndex (r :: rest) =
        r.wordBytes ++ 0 ::
          (be32Bytes r.offset ++ (be32Bytes r.size ++ encodeIndex rest)) := by
      simp [encodeIndex, encodeRecord, List.append_assoc]
    have hlen : (encodeIndex (r :: rest)).length =
        r.wordBytes.length + 9 + (encodeIndex rest).length := by
      rw [henc]
      simp [be32Bytes]
      omega
    cases fuel with
    | zero =>
      exfalso
      rw [hlen] at hfuel
      omega
    | succ f =>
      rw [henc]
      simp only [parseEntriesLoop,
        findNullIdx_append r.wordBytes _ hnz]
      have htake : (r.wordBytes ++ 0 ::
          (be32Bytes r.offset ++ (be32Bytes r.size ++ encodeIndex rest))).take
            r.wordBytes.length = r.wordBytes :=
        List.take_left' rfl
      have hdrop : (r.wordBytes ++ 0 ::
          (be32Bytes r.offset ++ (be32Bytes r.size ++ encodeIndex rest))).drop
            (r.wordBytes.length + 1) =
          be32Bytes r.offset ++ (be32Bytes r.size ++ encodeIndex rest) := by
        rw [List.append_cons]
        refine List.drop_left' ?_
        simp
      rw [htake, hdrop]
      have hlen8 : ¬ (be32Bytes r.offset ++
          (be32Bytes r.size ++ encodeIndex rest)).length < 8 := by
        simp [be32Bytes]
      rw [if_neg hlen8]
      have ht4 : (be32Bytes r.offset ++
          (be32Bytes r.size ++ encodeIndex rest)).take 4 = be32Bytes r.offset :=
        List.take_left' rfl
      have hd4 : (be32Bytes r.offset ++
          (be32Bytes r.size ++ encodeIndex rest)).drop 4 =
          be32Bytes r.size ++ encodeIndex rest :=
        List.drop_left' rfl
      have ht4b : (be32Bytes r.size ++ encodeIndex rest).take 4 =
          be32Bytes r.size :=
        List.take_left' rfl
      have hd8 : (be32Bytes r.offset ++
          (be32Bytes r.size ++ encodeIndex rest)).drop 8 = encodeIndex rest := by
        rw [← List.append_assoc]
        refine List.drop_left' ?_
        simp [be32Bytes]
      rw [ht4, hd4, ht4b, hd8,
        be32Of_be32Bytes r.offset hoff, be32Of_be32Bytes r.size hsz,
        ih f (by rw [hlen] at hfuel; omega)
          (fun q hq => hwf q (List.mem_cons_of_mem r hq))]
      rw [List.filterMap_cons]
      by_cases hob : r.offset < dictData.length
      · simp only [primEntry, if_pos hob, List.singleton_append, Prod.mk.injEq]
        refine ⟨trivial, ?_⟩
        simp [be32Bytes]
        omega
      · simp only [primEntry, if_neg hob, List.nil_append, Prod.mk.injEq]
        refine ⟨trivial, ?_⟩
        simp [be32Bytes]
        omega

theorem recoverLoop_target (existing : List PyStr) :
    ∀ (fuel : Nat) (idx : List Nat),
    recoverLoop existing Lang.target fuel idx = ([], 0) := by
  intro fuel
  induction fuel with
  | zero => intro idx; rfl
  | succ f ih =>
    intro idx
    simp only [recoverLoop]
    cases hfind : findNullIdx idx with
    | none => rfl
    | some nullPos =>
      dsimp only
      by_cases h8 : (idx.drop (nullPos + 1)).length < 8
      · rw [if_pos h8]
      · rw [if_neg h8]
        simp only [ih]
        rfl

theorem recoverCore_target (existing : List PyStr) (idx : List Nat) :
    recoverCore existing Lang.target idx = ([], 0) :=
  recoverLoop_target existing idx.length idx

theorem recoverLoop_encode_source (existing : List PyStr) :
    ∀ (rs : List IdxRecord) (fuel : Nat), (encodeIndex rs).length ≤ fuel →
    (∀ r ∈ rs, WellFormedRecord r) →
    recoverLoop existing Lang.source fuel (encodeIndex rs) =
      (rs.filterMap (recovEntry existing),
       (rs.filterMap (recovEntry existing)).length) := by
  intro rs
  induction rs with
  | nil =>
    intro fuel _ _
    cases fuel with
    | zero => rfl
    | succ f => rfl
  | cons r rest ih =>
    intro fuel hfuel hwf
    obtain ⟨hnz, hoff, hsz⟩ := hwf r (List.mem_cons_self r rest)
    have henc : encodeIndex (r :: rest) =
        r.wordBytes ++ 0 ::
          (be32Bytes r.offset ++ (be32Bytes r.size ++ encodeIndex rest)) := by
      simp [encodeIndex, encodeRecord, List.append_assoc]
    have hlen : (encodeIndex (r :: rest)).length =
        r.wordBytes.length + 9 + (encodeIndex rest).length := by
      rw [henc]
      simp [be32Bytes]
      omega
    cases fuel with
    | zero =>
      exfalso
      rw [hlen] at hfuel
      omega
    | succ f =>
      rw [henc]
      simp only [recoverLoop,
        findNullIdx_append r.wordBytes _ hnz]
      have htake : (r.wordBytes ++ 0 ::
          (be32Bytes r.offset ++ (be32Bytes r.size ++ encodeIndex rest))).take
            r.wordBytes.length = r.wordBytes :=
        List.take_left' rfl
      have hdrop : (r.wordBytes ++ 0 ::
          (be32Bytes r.offset ++ (be32Bytes r.size ++ encodeIndex rest))).drop
            (r.wordBytes.length + 1) =
          be32Bytes r.offset ++ (be32Bytes r.size ++ encodeIndex rest) := by
        rw [List.append_cons]
        refine List.drop_left' ?_
        simp
      rw [htake, hdrop]
      have hlen8 : ¬ (be32Bytes r.offset ++
          (be32Bytes r.size ++ encodeIndex rest)).length < 8 := by
        simp [be32Bytes]
      rw [if_neg hlen8]
      have hd8 : (be32Bytes r.offset ++
          (be32Bytes r.size ++ encodeIndex rest)).drop 8 = encodeIndex rest := by
        rw [← List.append_assoc]
        refine List.drop_left' ?_
        simp [be32Bytes]
      rw [hd8, ih f (by rw [hlen] at hfuel; omega)
        (fun q hq => hwf q (List.mem_cons_of_mem r hq))]
      rw [List.filterMap_cons]
      simp only [eq_self_iff_true, if_true]
      by_cases hcond : (is_valid_word (clean_word (decodeUtf8Ignore r.wordBytes)) &&
          !existing.contains (decodeUtf8Ignore r.wordBytes)) = true
      · rw [if_pos hcond]
        simp only [recovEntry]
        rw [if_pos hcond]
        simp
      · rw [if_neg hcond]
        simp only [recovEntry]
        rw [if_neg hcond]

theorem parseEntriesCore_encode (dictData : List Nat) (rs : List IdxRecord)
    (hwf : ∀ r ∈ rs, WellFormedRecord r) :
    parseEntriesCore dictData (encodeIndex rs) =
      (rs.filterMap (primEntry dictData), (encodeIndex rs).length) := by
  unfold parseEntriesCore
  exact parseEntriesLoop_encode dictData rs (encodeIndex rs).length (Nat.le_refl _) hwf

theorem recoverCore_encode_source (existing : List PyStr) (rs : List IdxRecord)
    (hwf : ∀ r ∈ rs, WellFormedRecord r) :
    recoverCore existing Lang.source (encodeIndex rs) =
      (rs.filterMap (recovEntry existing),
       (rs.filterMap (recovEntry existing)).length) := by
  unfold recoverCore
  exact recoverLoop_encode_source existing rs (encodeIndex rs).length (Nat.le_refl _) hwf

/-- C7: for a serialized index of well-formed records, the primary pass
skips every record whose offset is at or beyond the data buffer's
length and accepts in-bounds records with the definition length clamped
to the remaining bytes (`primEntry`), consuming the whole buffer; and
when the recovery pass triggers (parsed entries fewer than index length
divided by 12), a skipped record whose cleaned headword is valid and
not among the parsed entry words still appears in the source-role word
output. -/
theorem c7_stardict_bounds (rs : List IdxRecord) (dictData : List Nat)
    (hwf : ∀ r ∈ rs, WellFormedRecord r) :
    parseEntriesCore dictData (encodeIndex rs) =
      (rs.filterMap (primEntry dictData), (encodeIndex rs).length) ∧
    (∀ r ∈ rs, dictData.length ≤ r.offset →
      (rs.filterMap (primEntry dictData)).length < (encodeIndex rs).length / 12 →
      is_valid_word (clean_word (decodeUtf8Ignore r.wordBytes)) = true →
      ((rs.filterMap (primEntry dictData)).map Prod.fst).contains
        (decodeUtf8Ignore r.wordBytes) = false →
      clean_word (decodeUtf8Ignore r.wordBytes) ∈
        (extract_words_from_stardict (encodeIndex rs) dictData Lang.source).1) := by
  have hparse := parseEntriesCore_encode dictData rs hwf
  refine ⟨hparse, ?_⟩
  intro r hr _ htrig hvalid hnotin
  unfold extract_words_from_stardict
  rw [hparse]
  dsimp only
  rw [if_pos htrig,
    recoverCore_encode_source ((rs.filterMap (primEntry dictData)).map Prod.fst)
      rs hwf]
  apply List.mem_append_left
  rw [List.mem_filterMap]
  refine ⟨r, hr, ?_⟩
  simp only [recovEntry, hvalid, hnotin]
  rfl

/-- A closed instance of the C7 recovery behaviour: a single record with
offset 100 against an empty data buffer is skipped by the primary pass,
the recovery pass triggers, and the record's headword `word` appears in
the source-role output. -/
theorem c7_stardict_bounds_witness :
    clean_word (decodeUtf8Ignore c7Record.wordBytes) ∈
      (extract_words_from_stardict (encodeIndex [c7Record]) [] Lang.source).1 := by
  have hwf : ∀ r ∈ [c7Record], WellFormedRecord r := by
    intro r hr
    rw [List.mem_singleton] at hr
    subst hr
    exact ⟨by decide, by decide, by decide⟩
  exact (c7_stardict_bounds [c7Record] [] hwf).2 c7Record (by simp)
    (by decide) (by decide) (by decide) (by decide)

/-- C8: for every index and data buffer, the target role returns no
words (and a zero recovered count); the source role contains the
cleaned headword of every successfully parsed entry that passes
`is_valid_word`, and, when the recovery pass triggers, every recovered
headword as well. -/
theorem c8_stardict_roles (idxData dictData : List Nat) :
    extract_words_from_stardict idxData dictData Lang.target = ([], 0) ∧
    (∀ e ∈ (parseEntriesCore dictData idxData).1,
      is_valid_word (clean_word e.1) = true →
      clean_word e.1 ∈ (extract_words_from_stardict idxData dictData Lang.source).1) ∧
    ((parseEntriesCore dictData idxData).1.length <
        (parseEntriesCore dictData idxData).2 / 12 →
      ∀ w ∈ (recoverCore ((parseEntriesCore dictData idxData).1.map Prod.fst)
          Lang.source idxData).1,
        w ∈ (extract_words_from_stardict idxData dictData Lang.source).1) := by
  refine ⟨?_, ?_, ?_⟩
  · unfold extract_words_from_stardict
    dsimp only
    have hfm : (parseEntriesCore dictData idxData).1.filterMap
        (fun _ => (none : Option PyStr)) = [] :=
      List.filterMap_eq_nil.mpr (fun a _ => rfl)
    by_cases htrig : (parseEntriesCore dictData idxData).1.length <
        (parseEntriesCore dictData idxData).2 / 12
    · rw [if_pos htrig, recoverCore_target]
      rw [hfm]
      rfl
    · rw [if_neg htrig]
      rw [hfm]
      rfl
  · intro e he hvalid
    unfold extract_words_from_stardict
    dsimp only
    apply List.mem_append_right
    rw [List.mem_filterMap]
    refine ⟨e, he, ?_⟩
    simp only [hvalid]
    rfl
  · intro htrig w hw
    unfold extract_words_from_stardict
    dsimp only
    rw [if_pos htrig]
    exact List.mem_append_left _ hw

/-- A closed instance of the C8 source/target behaviour on a one-record
index whose offset is in bounds. -/
theorem c8_stardict_roles_witness :
    extract_words_from_stardict (encodeIndex [c8Record]) [104, 105, 33]
      Lang.target = ([], 0) ∧
    clean_word (decodeUtf8Ignore c8Record.wordBytes) ∈
      (extract_words_from_stardict (encodeIndex [c8Record]) [104, 105, 33]
        Lang.source).1 := by
  have h := c8_stardict_roles (encodeIndex [c8Record]) [104, 105, 33]
  refine ⟨h.1, ?_⟩
  have hwf : ∀ r ∈ [c8Record], WellFormedRecord r := by
    intro r hr
    rw [List.mem_singleton] at hr
    subst hr
    exact ⟨by decide, by decide, by decide⟩
  have hparse := parseEntriesCore_encode [104, 105, 33] [c8Record] hwf
  refine h.2.1 (decodeUtf8Ignore c8Record.wordBytes,
    decodeUtf8Ignore (([104, 105, 33].drop c8Record.offset).take
      (min c8Record.size (3 - c8Record.offset)))) ?_ (by decide)
  rw [hparse]
  simp [primEntry, c8Record]
